import Mathlib

/-!
Verification development for the pycavalry static type checker.

The definitions below are a shallow embedding of the checker core:
the type lattice (`Ty`), the subtype relation (`isSubtype`, from
`src/types/helpers.rs::is_subtype`), union normalization (`union`,
`flatten`, `collapseSubtypes`), the scope stack (`Scope`, from
`src/scope.rs`), the expression checker (`synthE` / `checkE`, from
`crates/pycavalry_lib/src/synth/expression.rs`), the annotation
interpreter (`synthAnnot`, from `src/synth/annotation.rs`) and the
statement checker (`checkStatement`, from `src/synth/statement.rs`).

Conventions of the embedding:
* Rust code paths that panic (`unimplemented`, `unwrap` on a missing
  value, failed `assert`) are modeled by `Option`-valued functions
  returning `none`.
* Rust `Vec<Type>` and the other recursive containers are modeled by
  the mutually inductive list types below (`TyList`, `ExprList`, ...)
  so that all functions stay executable and kernel-reducible.
* The diagnostics reporter is modeled by explicit diagnostic lists:
  a function returns the list of diagnostics it appended, in order.
* The reference counted `TType` wrapper is identified with `Type`
  itself: it is a pure value compared structurally.
-/

/-- Byte range of an AST node, mirroring ruff TextRange. -/
structure TextRange where
  start : Nat
  stop : Nat
deriving DecidableEq, Repr

/-- Expression context of a ruff Name node. -/
inductive ExprContext where
  | Load
  | Store
  | Del
deriving DecidableEq, Repr

/-- Literal payloads, from src/types/base.rs::TypeLiteral.  Float literals
carry their textual form, exactly like the Rust code. -/
inductive TypeLiteral where
  | StringLiteral (s : String)
  | BytesLiteral (b : List Nat)
  | IntLiteral (i : Int)
  | FloatLiteral (s : String)
  | BooleanLiteral (b : Bool)
  | NoneLiteral
  | EllipsisLiteral
deriving DecidableEq, Repr

/- The subset of ruff expression nodes consumed by the checker.  Every
node carries its source range.  Number literals are split into the int,
float and complex cases of ruff Number; int payloads are modeled as
unbounded integers (the Rust code calls as_i64 and unwraps).  `other`
stands for any further ruff expression kind; every one of them hits the
unimplemented arm of the checker.  `ExprList` models `Vec<Expr>`,
`OptExpr` models `Option<Expr>` and `ParamList` models the parameter
list of a lambda, each parameter being name, optional annotation and
optional default. -/
mutual
/-- Expression nodes. -/
inductive Expr where
  | noneLit (r : TextRange)
  | boolLit (r : TextRange) (b : Bool)
  | intLit (r : TextRange) (i : Int)
  | floatLit (r : TextRange) (s : String)
  | complexLit (r : TextRange)
  | stringLit (r : TextRange) (s : String)
  | bytesLit (r : TextRange) (b : List Nat)
  | ellipsisLit (r : TextRange)
  | name (r : TextRange) (id : String) (ctx : ExprContext)
  | lambda (r : TextRange) (params : ParamList) (body : Expr)
  | call (r : TextRange) (func : Expr) (args : ExprList)
  | attribute (r : TextRange) (value : Expr) (attr : String)
  | tuple (r : TextRange) (elts : ExprList)
  | subscript (r : TextRange) (value : Expr) (slice : Expr)
  | other (r : TextRange)

inductive ExprList where
  | nil
  | cons (e : Expr) (es : ExprList)

inductive OptExpr where
  | noneE
  | someE (e : Expr)

inductive ParamList where
  | nil
  | cons (pname : String) (annot : OptExpr) (dflt : OptExpr) (rest : ParamList)
end

/-- Source range of an expression, mirroring Ranged::range. -/
def Expr.range : Expr → TextRange
  | .noneLit r => r
  | .boolLit r _ => r
  | .intLit r _ => r
  | .floatLit r _ => r
  | .complexLit r => r
  | .stringLit r _ => r
  | .bytesLit r _ => r
  | .ellipsisLit r => r
  | .name r _ _ => r
  | .lambda r _ _ => r
  | .call r _ _ => r
  | .attribute r _ _ => r
  | .tuple r _ => r
  | .subscript r _ _ => r
  | .other r => r

/-- Import alias: name, optional asname, own range (ruff Alias). -/
structure ImportAlias where
  aliasName : String
  asname : Option String
  range : TextRange

/- The subset of ruff statement nodes consumed by the checker.
Function definitions carry the name, the parameter triples
(name, optional annotation, optional default), the optional return
annotation expression and the body.  `other` is any further statement
kind; the checker panics on it. -/
mutual
/-- Statement nodes. -/
inductive Stmt where
  | annAssign (r : TextRange) (target : Expr) (annot : Expr) (value : Option Expr)
  | assign (r : TextRange) (targets : List Expr) (value : Expr)
  | exprStmt (r : TextRange) (value : Expr)
  | ret (r : TextRange) (value : Option Expr)
  | functionDef (r : TextRange) (fname : String)
      (params : List (String × Option Expr × Option Expr))
      (returns : Option Expr) (body : StmtList)
  | classDef (r : TextRange) (cname : String)
  | importStmt (r : TextRange) (names : List ImportAlias)
  | importFrom (r : TextRange) (module : Option String) (names : List ImportAlias)
  | pass (r : TextRange)
  | other (r : TextRange)

inductive StmtList where
  | nil
  | cons (s : Stmt) (rest : StmtList)
end

/- The type lattice, from src/types/base.rs::Type.  `TyList` models
`Vec<Type>`; `FnList` models `Vec<Function>` (each entry args, names,
return); `TyParamList` models `Vec<(String, TType)>`; `BindList` models
the `HashMap<String, ScopedType>` of a module as an association list of
(name, type, is_locked) triples; `OptTy` and `OptTyList` model the
optional fields of PartialFunction.  The PartialFunction arm omits the
raw function AST that the Rust struct also stores: no modeled operation
ever reads it, and the arm is dead in the modeled paths because the
TryFrom conversion in the statement checker always succeeds. -/
mutual
/-- Type lattice values. -/
inductive Ty where
  | Any
  | Unknown
  | Never
  | String
  | Int
  | Float
  | Bool
  | None
  | Ellipsis
  | Tuple (ts : TyList)
  | Literal (l : TypeLiteral)
  | Function (args : TyList) (argNames : List String) (ret : Ty)
  | PartialFunction (args : OptTyList) (argNames : Option (List String)) (ret : OptTy)
  | Class (cname : String) (functions : FnList) (parameters : TyParamList)
  | Union (ts : TyList)
  | Module (mname : String) (bindings : BindList)
deriving DecidableEq, Repr

inductive TyList where
  | nil
  | cons (t : Ty) (ts : TyList)
deriving DecidableEq, Repr

inductive OptTy where
  | noneT
  | someT (t : Ty)
deriving DecidableEq, Repr

inductive OptTyList where
  | noneTL
  | someTL (ts : TyList)
deriving DecidableEq, Repr

inductive FnList where
  | nil
  | cons (args : TyList) (argNames : List String) (ret : Ty) (rest : FnList)
deriving DecidableEq, Repr

inductive TyParamList where
  | nil
  | cons (pname : String) (t : Ty) (rest : TyParamList)
deriving DecidableEq, Repr

inductive BindList where
  | nil
  | cons (bname : String) (t : Ty) (locked : Bool) (rest : BindList)
deriving DecidableEq, Repr
end

/-- Convenience: build a TyList from a Lean list. -/
def tyListOf : List Ty → TyList
  | [] => .nil
  | t :: ts => .cons t (tyListOf ts)

/-- Convenience: build an ExprList from a Lean list. -/
def exprListOf : List Expr → ExprList
  | [] => .nil
  | e :: es => .cons e (exprListOf es)

/-- Membership test on a TyList. -/
def tyMemB (t : Ty) : TyList → Bool
  | .nil => false
  | .cons u us => decide (t = u) || tyMemB t us

/-- Membership in a TyList. -/
def tyMem (t : Ty) (ts : TyList) : Prop := tyMemB t ts = true

/-- Length of a TyList. -/
def tyLen : TyList → Nat
  | .nil => 0
  | .cons _ ts => tyLen ts + 1

/-- Indexing into a TyList. -/
def tyGet : TyList → Nat → Option Ty
  | .nil, _ => Option.none
  | .cons t _, 0 => Option.some t
  | .cons _ ts, n + 1 => tyGet ts n

/- Computable size measure on types, used as recursion fuel and as the
induction measure of the lemmas below. -/
mutual
/-- Size of a type. -/
def tySize : Ty → Nat
  | .Tuple ts => 1 + tyListSize ts
  | .Literal _ => 2
  | .Function args _ ret => 1 + tyListSize args + tySize ret
  | .PartialFunction args _ ret => 1 + optTyListSize args + optTySize ret
  | .Class _ fns ps => 1 + fnListSize fns + tyParamListSize ps
  | .Union ts => 1 + tyListSize ts
  | .Module _ bs => 1 + bindListSize bs
  | _ => 1

def tyListSize : TyList → Nat
  | .nil => 0
  | .cons t ts => tySize t + tyListSize ts

def optTySize : OptTy → Nat
  | .noneT => 0
  | .someT t => tySize t

def optTyListSize : OptTyList → Nat
  | .noneTL => 0
  | .someTL ts => tyListSize ts

def fnListSize : FnList → Nat
  | .nil => 0
  | .cons args _ ret rest => tyListSize args + tySize ret + fnListSize rest

def tyParamListSize : TyParamList → Nat
  | .nil => 0
  | .cons _ t rest => tySize t + tyParamListSize rest

def bindListSize : BindList → Nat
  | .nil => 0
  | .cons _ t _ rest => tySize t + bindListSize rest
end

/-- Short-circuiting forall over an Option-valued predicate, mirroring
Iterator::all applied to a closure that may panic: elements after the
first false are not evaluated. -/
def optAll (f : α → Option Bool) : List α → Option Bool
  | [] => Option.some true
  | x :: xs =>
    match f x with
    | Option.none => Option.none
    | Option.some false => Option.some false
    | Option.some true => optAll f xs

/-- Short-circuiting exists over an Option-valued predicate, mirroring
Iterator::any. -/
def optAny (f : α → Option Bool) : List α → Option Bool
  | [] => Option.some false
  | x :: xs =>
    match f x with
    | Option.none => Option.none
    | Option.some true => Option.some true
    | Option.some false => optAny f xs

/-- optAll over a TyList. -/
def optAllTy (f : Ty → Option Bool) : TyList → Option Bool
  | .nil => Option.some true
  | .cons t ts =>
    match f t with
    | Option.none => Option.none
    | Option.some false => Option.some false
    | Option.some true => optAllTy f ts

/-- optAny over a TyList. -/
def optAnyTy (f : Ty → Option Bool) : TyList → Option Bool
  | .nil => Option.some false
  | .cons t ts =>
    match f t with
    | Option.none => Option.none
    | Option.some true => Option.some true
    | Option.some false => optAnyTy f ts

/-- Short-circuiting pairwise forall over two TyLists, used for the
function argument and tuple element comparisons (Rust zips or indexes
the two equal-length vectors). -/
def optZipAllTy (f : Ty → Ty → Option Bool) : TyList → TyList → Option Bool
  | .nil, _ => Option.some true
  | _, .nil => Option.some true
  | .cons x xs, .cons y ys =>
    match f x y with
    | Option.none => Option.none
    | Option.some false => Option.some false
    | Option.some true => optZipAllTy f xs ys

/-- Fueled subtype test, a direct transcription of
src/types/helpers.rs::is_subtype.  The result none models a panic (the
unimplemented arm for bytes literals); fuel exhaustion also gives none
but the wrapper isSubtype below always supplies enough fuel.  The
equality test first, the literal reduction second and the ordered match
arms mirror the Rust source. -/
def isSubtypeF : Nat → Ty → Ty → Option Bool
  | 0, _, _ => Option.none
  | n + 1, a, b =>
    if a = b then Option.some true
    else
      match a with
      | .Literal (.StringLiteral _) => isSubtypeF n .String b
      | .Literal (.BytesLiteral _) => Option.none
      | .Literal (.IntLiteral _) => isSubtypeF n .Int b
      | .Literal (.FloatLiteral _) => isSubtypeF n .Float b
      | .Literal (.BooleanLiteral _) => isSubtypeF n .Bool b
      | .Literal (.NoneLiteral) => isSubtypeF n .None b
      | .Literal (.EllipsisLiteral) => isSubtypeF n .Ellipsis b
      | .Any => Option.some true
      | .Unknown => Option.some true
      | a =>
        match b with
        | .Any => Option.some true
        | .Unknown => Option.some true
        | b =>
          match a, b with
          | .Int, .Float => Option.some true
          | .Never, _ => Option.some false
          | .Union ts, _ => optAllTy (fun t => isSubtypeF n t b) ts
          | _, .Union us => optAnyTy (fun u => isSubtypeF n a u) us
          | .Function args1 _ ret1, .Function args2 _ ret2 =>
            if tyLen args1 = tyLen args2 then
              match optZipAllTy (fun t2 t1 => isSubtypeF n t2 t1) args2 args1 with
              | Option.none => Option.none
              | Option.some false => Option.some false
              | Option.some true => isSubtypeF n ret1 ret2
            else Option.some false
          | .Tuple ts1, .Tuple ts2 =>
            if tyLen ts1 = tyLen ts2 then optZipAllTy (fun x y => isSubtypeF n x y) ts1 ts2
            else Option.some false
          | _, _ => Option.some false

/-- The subtype relation of the checker; some true / some false are the
Rust return values, none is a panic. -/
def isSubtype (a b : Ty) : Option Bool := isSubtypeF (tySize a + tySize b) a b

/- Generic conjunction of a node predicate over every node of a type
tree, used to state the occurrence side conditions (no Any or Unknown
anywhere, no bytes literal anywhere). -/
mutual
/-- Does p hold at every node of the type tree. -/
def tyAllNodes (p : Ty → Bool) : Ty → Bool
  | .Tuple ts => p (.Tuple ts) && tyListAllNodes p ts
  | .Function args ns ret =>
    p (.Function args ns ret) && (tyListAllNodes p args && tyAllNodes p ret)
  | .PartialFunction args ns ret =>
    p (.PartialFunction args ns ret) && (optTyListAllNodes p args && optTyAllNodes p ret)
  | .Class cn fns ps => p (.Class cn fns ps) && (fnListAllNodes p fns && tyParamListAllNodes p ps)
  | .Union ts => p (.Union ts) && tyListAllNodes p ts
  | .Module mn bs => p (.Module mn bs) && bindListAllNodes p bs
  | t => p t

def tyListAllNodes (p : Ty → Bool) : TyList → Bool
  | .nil => true
  | .cons t ts => tyAllNodes p t && tyListAllNodes p ts

def optTyAllNodes (p : Ty → Bool) : OptTy → Bool
  | .noneT => true
  | .someT t => tyAllNodes p t

def optTyListAllNodes (p : Ty → Bool) : OptTyList → Bool
  | .noneTL => true
  | .someTL ts => tyListAllNodes p ts

def fnListAllNodes (p : Ty → Bool) : FnList → Bool
  | .nil => true
  | .cons args _ ret rest => tyListAllNodes p args && tyAllNodes p ret && fnListAllNodes p rest

def tyParamListAllNodes (p : Ty → Bool) : TyParamList → Bool
  | .nil => true
  | .cons _ t rest => tyAllNodes p t && tyParamListAllNodes p rest

def bindListAllNodes (p : Ty → Bool) : BindList → Bool
  | .nil => true
  | .cons _ t _ rest => tyAllNodes p t && bindListAllNodes p rest
end

/-- Neither Any nor Unknown occurs anywhere in the type. -/
def noAnyUnknown (t : Ty) : Bool :=
  tyAllNodes (fun u => !(decide (u = .Any) || decide (u = .Unknown))) t

/-- No bytes literal occurs anywhere in the type (bytes literals are the
one spot where is_subtype hits an unimplemented arm). -/
def noBytes (t : Ty) : Bool :=
  tyAllNodes
    (fun u => match u with | .Literal (.BytesLiteral _) => false | _ => true) t

/-- Debug rendering of a byte vector, as Rust {:?} prints a Vec. -/
def natListDebug (l : List Nat) : String :=
  "[" ++ String.intercalate ", " (l.map toString) ++ "]"

/-- Inner rendering of a literal, from
src/types/base.rs::display_type_literal_inside. -/
def litInside : TypeLiteral → String
  | .StringLiteral s => "\"" ++ s ++ "\""
  | .BytesLiteral b => "b\"" ++ natListDebug b ++ "\""
  | .IntLiteral i => toString i
  | .FloatLiteral s => s
  | .BooleanLiteral b => if b then "True" else "False"
  | .NoneLiteral => "None"
  | .EllipsisLiteral => "..."

/-- Is every member of the list a Literal type (the test the Union
display case performs). -/
def tyAllLit : TyList → Bool
  | .nil => true
  | .cons t ts => (match t with | .Literal _ => true | _ => false) && tyAllLit ts

/- Canonical display of types, from the fmt::Display implementation in
src/types/base.rs (write_iter joins with a comma and a space). -/
mutual
/-- Display form of a type. -/
def tyToString : Ty → String
  | .Never => "Never"
  | .Any => "Any"
  | .Unknown => "Unknown"
  | .String => "str"
  | .Int => "int"
  | .Float => "float"
  | .Bool => "bool"
  | .None => "None"
  | .Ellipsis => "..."
  | .Tuple ts => "tuple[" ++ tyListJoin ts ++ "]"
  | .Literal l => "Literal[" ++ litInside l ++ "]"
  | .Function args names ret => "(" ++ fnArgsJoin names args ++ ") -> " ++ tyToString ret
  | .PartialFunction _ _ _ => "Partial Func"
  | .Class n _ _ => "type[" ++ n ++ "]"
  | .Union ts =>
    if tyAllLit ts then "Literal[" ++ tyListJoinLit ts ++ "]"
    else "Union[" ++ tyListJoin ts ++ "]"
  | .Module n _ => "module[" ++ n ++ "]"

def tyListJoin : TyList → String
  | .nil => ""
  | .cons t .nil => tyToString t
  | .cons t ts => tyToString t ++ ", " ++ tyListJoin ts

def tyListJoinLit : TyList → String
  | .nil => ""
  | .cons t .nil => litInsideOf t
  | .cons t ts => litInsideOf t ++ ", " ++ tyListJoinLit ts

def litInsideOf : Ty → String
  | .Literal l => litInside l
  | _ => ""

def fnArgsJoin : List String → TyList → String
  | n :: ns, .cons t ts =>
    let first := n ++ ": " ++ tyToString t
    match ns, ts with
    | _ :: _, .cons _ _ => first ++ ", " ++ fnArgsJoin ns ts
    | _, _ => first
  | _, _ => ""
end

/-- Append two TyLists. -/
def tyAppend : TyList → TyList → TyList
  | .nil, ys => ys
  | .cons x xs, ys => .cons x (tyAppend xs ys)

/-- One flattening pass, from src/types/helpers.rs::flatten: a Union
member contributes its contents, any other member itself, in order. -/
def flatten : TyList → TyList
  | .nil => .nil
  | .cons t ts =>
    match t with
    | .Union inner => tyAppend inner (flatten ts)
    | t => .cons t (flatten ts)

/-- The keep condition of collapse_subtypes for the arm t1 at index i1,
scanned over the arms (i2, t2) in order with Rust shortcut semantics:
an arm is kept if for every other arm it is not a subtype of that arm,
or it is equivalent to it and stands earlier.  none models a panic
inside is_subtype. -/
def collapseCond (t1 : Ty) (i1 : Nat) : Nat → TyList → Option Bool
  | _, .nil => Option.some true
  | i2, .cons t2 rest =>
    if i1 = i2 then collapseCond t1 i1 (i2 + 1) rest
    else
      match isSubtype t1 t2 with
      | Option.none => Option.none
      | Option.some false => collapseCond t1 i1 (i2 + 1) rest
      | Option.some true =>
        match isSubtype t2 t1 with
        | Option.none => Option.none
        | Option.some s21 =>
          if s21 && decide (i1 < i2) then collapseCond t1 i1 (i2 + 1) rest
          else Option.some false

/-- The keep flags of all arms, computed in order. -/
def collapseKeeps (all : TyList) : Nat → TyList → Option (List Bool)
  | _, .nil => Option.some []
  | i1, .cons t1 rest => do
    let k ← collapseCond t1 i1 0 all
    let ks ← collapseKeeps all (i1 + 1) rest
    pure (k :: ks)

/-- Filter a TyList by a list of keep flags (zip semantics). -/
def tyFilterKeep : TyList → List Bool → TyList
  | .nil, _ => .nil
  | .cons _ _, [] => .nil
  | .cons t ts, k :: ks => if k then .cons t (tyFilterKeep ts ks) else tyFilterKeep ts ks

/-- src/types/helpers.rs::collapse_subtypes. -/
def collapseSubtypes (types : TyList) : Option TyList := do
  let keeps ← collapseKeeps types 0 types
  pure (tyFilterKeep types keeps)

/-- src/types/helpers.rs::collapse_union_types. -/
def collapseUnionTypes (types : TyList) : Option TyList :=
  collapseSubtypes (flatten types)

/-- src/types/helpers.rs::union: flatten, collapse, then collapse the
empty list to Never and a singleton to its single member. -/
def union (types : TyList) : Option Ty := do
  let ts ← collapseUnionTypes types
  pure
    (match ts with
    | .nil => Ty.Never
    | .cons t .nil => t
    | ts => Ty.Union ts)

/-- A scope entry, from src/scope.rs::ScopedType. -/
structure ScopedTy where
  typ : Ty
  isLocked : Bool
deriving DecidableEq, Repr

/-- ScopedType::new: an unlocked entry. -/
def scopedNew (t : Ty) : ScopedTy := ⟨t, false⟩

/-- ScopedType::locked: a locked entry. -/
def scopedLocked (t : Ty) : ScopedTy := ⟨t, true⟩

/-- One scope frame, the HashMap modeled as an association list with
insert-overwrites semantics. -/
def ScopeMap := List (String × ScopedTy)
deriving instance DecidableEq, Repr for ScopeMap

/-- HashMap::get. -/
def mapGet : ScopeMap → String → Option ScopedTy
  | [], _ => Option.none
  | (k, v) :: rest, n => if k = n then Option.some v else mapGet rest n

/-- HashMap::insert: overwrite the existing key or append a new one. -/
def mapInsert : ScopeMap → String → ScopedTy → ScopeMap
  | [], n, v => [(n, v)]
  | (k, w) :: rest, n, v =>
    if k = n then (k, v) :: rest else (k, w) :: mapInsert rest n v

/-- The scope stack, from src/scope.rs::Scope.  The Rust Vec keeps the
top frame at its end; here `scopes` keeps the top frame at the head so
that push and pop are cons and tail. -/
structure Scope where
  global : ScopeMap
  scopes : List ScopeMap
deriving DecidableEq, Repr

/-- Scope::new. -/
def scopeNew : Scope := ⟨[], []⟩

/-- Scope::top_scope: the innermost frame, or the global one. -/
def scopeTopMap (s : Scope) : ScopeMap :=
  match s.scopes with
  | [] => s.global
  | m :: _ => m

/-- Scope::get_top. -/
def scopeGetTop (s : Scope) (n : String) : Option ScopedTy := mapGet (scopeTopMap s) n

/-- Scope::get: search the frames from the top down, then the global
frame (all_scopes). -/
def scopeGet (s : Scope) (n : String) : Option ScopedTy :=
  go s.scopes
where
  go : List ScopeMap → Option ScopedTy
    | [] => mapGet s.global n
    | m :: rest =>
      match mapGet m n with
      | Option.some v => Option.some v
      | Option.none => go rest

/-- Scope::set: insert into the top frame only. -/
def scopeSet (s : Scope) (n : String) (v : ScopedTy) : Scope :=
  match s.scopes with
  | [] => { s with global := mapInsert s.global n v }
  | m :: rest => { s with scopes := mapInsert m n v :: rest }

/-- Scope::add_scope: push an empty frame. -/
def scopeAddScope (s : Scope) : Scope := { s with scopes := [] :: s.scopes }

/-- Scope::pop_scope: pop the top frame; popping with no pushed frame is
an assertion failure, that is a panic. -/
def scopePopScope (s : Scope) : Option Scope :=
  match s.scopes with
  | [] => Option.none
  | _ :: rest => Option.some { s with scopes := rest }

/-- The diagnostics of the checker: the ad-hoc string diagnostics
(Diagnostic::error) and the structured ones of
crates/pycavalry_lib/src/custom_diagnostics.rs. -/
inductive Diag where
  | error (msg : String) (range : TextRange)
  | revealType (typ : Ty) (range : TextRange)
  | notInScope (missing : String) (range : TextRange)
  | expectedButGot (expected : Ty) (got : Ty) (range : TextRange)
  | cantReassignLocked (expected : Ty) (got : Ty) (locked : String) (range : TextRange)
deriving DecidableEq, Repr

/-- The rendered message of each diagnostic, following the format
strings of custom_diagnostics.rs. -/
def diagMessage : Diag → String
  | .error m _ => m
  | .revealType t _ => "Type is " ++ tyToString t
  | .notInScope n _ => "Name \"" ++ n ++ "\" not found in scope."
  | .expectedButGot e g _ =>
    "Expected " ++ tyToString e ++ " but found " ++ tyToString g ++ "."
  | .cantReassignLocked e g n _ =>
    "\"" ++ n ++ "\" is already defined as " ++ tyToString e ++ ", can't redefine as " ++
      tyToString g ++
      " as it was previously defined with a type hint, so it can't be redefined as a different type."

/-- Length of an ExprList. -/
def exprLen : ExprList → Nat
  | .nil => 0
  | .cons _ es => exprLen es + 1

/-- Module binding lookup (HashMap::get on the bindings). -/
def bindGet : BindList → String → Option (Ty × Bool)
  | .nil, _ => Option.none
  | .cons k t locked rest, n => if k = n then Option.some (t, locked) else bindGet rest n

/- The expression checker, from
crates/pycavalry_lib/src/synth/expression.rs (synth and check; the copy
under src/src/synth/expression.rs differs only in the TType wrapper and
in emitting its diagnostics as plain strings).  A result of none is a
panic: the unimplemented expression kinds, the unwrap on a missing
reveal_type argument, and a panic inside is_subtype.  The pair result
carries the synthesized type and the diagnostics appended, in order.
check is not itself recursive but is called from the argument loop of a
call expression, so its body is inlined there (checkE below restates it
verbatim as the standalone function). -/
mutual
/-- synth of crates/pycavalry_lib/src/synth/expression.rs. -/
def synthE (scope : Scope) : Expr → Option (Ty × List Diag)
  | .noneLit _ => Option.some (.None, [])
  | .boolLit _ b => Option.some (.Literal (.BooleanLiteral b), [])
  | .intLit _ i => Option.some (.Literal (.IntLiteral i), [])
  | .floatLit _ s => Option.some (.Literal (.FloatLiteral s), [])
  | .complexLit _ => Option.none
  | .stringLit _ s => Option.some (.Literal (.StringLiteral s), [])
  | .name r id ctx =>
    if ctx = .Load then
      match scopeGet scope id with
      | Option.some sc => Option.some (sc.typ, [])
      | Option.none => Option.some (.Unknown, [.notInScope id r])
    else Option.none
  | .lambda _ params body => do
    let (args, argNames, ds) ← synthLambdaParams scope params
    let (ret, ds2) ← synthE scope body
    pure (.Function args argNames ret, ds ++ ds2)
  | .call r func args =>
    match func, args with
    | .name _ "reveal_type" _, .nil => Option.none
    | .name _ "reveal_type" _, .cons arg _ => do
      let (typ, ds) ← synthE scope arg
      pure (.Unknown, ds ++ [.revealType typ arg.range])
    | func, args => do
      let (funcTy, ds) ← synthE scope func
      match funcTy with
      | .Function cargs _ cret =>
        if tyLen cargs = exprLen args then do
          let ds2 ← checkCallArgs scope cargs args
          pure (cret, ds ++ ds2)
        else
          Option.some (.Unknown, ds ++
            [.error ("expected " ++ toString (tyLen cargs) ++ " args, got " ++
              toString (exprLen args) ++ " args") r])
      | t =>
        Option.some (.Unknown, ds ++ [.error (tyToString t ++ " not callable") func.range])
  | .attribute r value attr => do
    let (vt, ds) ← synthE scope value
    match vt with
    | .Module _ binds =>
      pure
        ((match bindGet binds attr with
          | Option.some (t, _) => t
          | Option.none => .Unknown), ds)
    | t =>
      pure (.Unknown, ds ++
        [.error ("Unknown attribute \"" ++ attr ++ "\" for " ++ tyToString t) r])
  | .tuple _ elts => do
    let (ts, ds) ← synthElts scope elts
    pure (.Tuple ts, ds)
  | .bytesLit _ _ => Option.none
  | .ellipsisLit _ => Option.none
  | .subscript _ _ _ => Option.none
  | .other _ => Option.none

/-- The lambda parameter loop of synth: each annotation is itself
synthesized as an expression, a missing one gives Unknown; lambda
defaults are ignored by the Rust code. -/
def synthLambdaParams (scope : Scope) : ParamList → Option (TyList × List String × List Diag)
  | .nil => Option.some (.nil, [], [])
  | .cons pname annot _ rest => do
    let (t, ds) ←
      (match annot with
      | .noneE => Option.some (Ty.Unknown, ([] : List Diag))
      | .someE a => synthE scope a)
    let (ts, ns, ds2) ← synthLambdaParams scope rest
    pure (.cons t ts, pname :: ns, ds ++ ds2)

/-- The positional argument loop of a call: check each argument against
the matching parameter type, discarding the result (the body of check is
inlined here because check re-enters synth). -/
def checkCallArgs (scope : Scope) : TyList → ExprList → Option (List Diag)
  | .nil, _ => Option.some []
  | _, .nil => Option.some []
  | .cons t ts, .cons e es => do
    let (s, ds1) ← synthE scope e
    let ds2 ←
      (match isSubtype s t with
      | Option.none => Option.none
      | Option.some true => Option.some ds1
      | Option.some false => Option.some (ds1 ++ [.expectedButGot t s e.range]))
    let rest ← checkCallArgs scope ts es
    pure (ds2 ++ rest)

/-- The element loop of a tuple expression. -/
def synthElts (scope : Scope) : ExprList → Option (TyList × List Diag)
  | .nil => Option.some (.nil, [])
  | .cons e es => do
    let (t, ds) ← synthE scope e
    let (ts, ds2) ← synthElts scope es
    pure (.cons t ts, ds ++ ds2)
end

/-- check of crates/pycavalry_lib/src/synth/expression.rs: synthesize,
test the subtype relation against the expected type, and on failure
report expected-but-got on the expression range and return no type. -/
def checkE (scope : Scope) (ast : Expr) (typ : Ty) : Option (Option Ty × List Diag) :=
  match synthE scope ast with
  | Option.none => Option.none
  | Option.some (synthType, ds) =>
    match isSubtype synthType typ with
    | Option.none => Option.none
    | Option.some true => Option.some (Option.some synthType, ds)
    | Option.some false =>
      Option.some (Option.none, ds ++ [.expectedButGot typ synthType ast.range])

/-- The partial annotation constructors, from
src/synth/annotation.rs::PartialAnnotationType. -/
inductive PartialAnnotKind where
  | Union
  | Literal
  | Tuple
deriving DecidableEq, Repr

/-- Display of a partial annotation constructor. -/
def pakToString : PartialAnnotKind → String
  | .Union => "Union"
  | .Literal => "Literal"
  | .Tuple => "tuple"

/- Stage A values of the annotation interpreter
(src/synth/annotation.rs::Annotation): either a realised type or a
partial constructor application, both with their range. -/
mutual
/-- Annotation values. -/
inductive Annot where
  | typeA (range : TextRange) (value : Ty)
  | partAnn (range : TextRange) (kind : PartialAnnotKind) (args : AnnotList)

inductive AnnotList where
  | nil
  | cons (a : Annot) (rest : AnnotList)
end

/-- Append two AnnotLists (Vec::push of the subscript argument loop). -/
def annotAppend : AnnotList → AnnotList → AnnotList
  | .nil, ys => ys
  | .cons x xs, ys => .cons x (annotAppend xs ys)

/- Stage A, from src/synth/annotation.rs::_synth_annotation (the lib
copy differs only in the TType wrapper).  The outer Option is a panic
(unimplemented bytes, complex and other expression kinds); the inner
Option is the Rust None return, whose error diagnostics have already
been appended. -/
mutual
/-- Stage A of the annotation interpreter on one expression. -/
def annStageA (scope : Scope) : Expr → Option (Option Annot × List Diag)
  | .subscript _ value slice => do
    let (vres, ds) ← annStageA scope value
    match vres with
    | Option.none => pure (Option.none, ds)
    | Option.some (.typeA _ tv) =>
      pure (Option.none, ds ++
        [.error ("Type " ++ tyToString tv ++ " doesn't support type arguments.") value.range])
    | Option.some (.partAnn pr kind args) =>
      match slice with
      | .tuple _ elts => do
        let (res, ds2) ← annStageAList scope elts
        match res with
        | Option.none => pure (Option.none, ds ++ ds2)
        | Option.some newArgs =>
          pure (Option.some (.partAnn pr kind (annotAppend args newArgs)), ds ++ ds2)
      | sliceExpr => do
        let (res, ds2) ← annStageA scope sliceExpr
        match res with
        | Option.none => pure (Option.none, ds ++ ds2)
        | Option.some a =>
          pure (Option.some (.partAnn pr kind (annotAppend args (.cons a .nil))), ds ++ ds2)
  | .name r id _ =>
    (match scopeGet scope id with
    | Option.some t => Option.some (Option.some (.typeA r t.typ), [])
    | Option.none =>
      match id with
      | "Union" => Option.some (Option.some (.partAnn r .Union .nil), [])
      | "Literal" => Option.some (Option.some (.partAnn r .Literal .nil), [])
      | "Tuple" => Option.some (Option.some (.partAnn r .Tuple .nil), [])
      | "tuple" => Option.some (Option.some (.partAnn r .Tuple .nil), [])
      | "Any" => Option.some (Option.some (.typeA r .Any), [])
      | "Unknown" => Option.some (Option.some (.typeA r .Unknown), [])
      | "str" => Option.some (Option.some (.typeA r .String), [])
      | "int" => Option.some (Option.some (.typeA r .Int), [])
      | "float" => Option.some (Option.some (.typeA r .Float), [])
      | "bool" => Option.some (Option.some (.typeA r .Bool), [])
      | "None" => Option.some (Option.some (.typeA r .None), [])
      | "..." => Option.some (Option.some (.typeA r .Ellipsis), [])
      | unknown => Option.some (Option.none, [.notInScope unknown r]))
  | .stringLit r s => Option.some (Option.some (.typeA r (.Literal (.StringLiteral s))), [])
  | .bytesLit _ _ => Option.none
  | .intLit r i => Option.some (Option.some (.typeA r (.Literal (.IntLiteral i))), [])
  | .floatLit r s => Option.some (Option.some (.typeA r (.Literal (.FloatLiteral s))), [])
  | .complexLit _ => Option.none
  | .boolLit r b => Option.some (Option.some (.typeA r (.Literal (.BooleanLiteral b))), [])
  | .noneLit r => Option.some (Option.some (.typeA r (.Literal .NoneLiteral)), [])
  | .ellipsisLit r => Option.some (Option.some (.typeA r (.Literal .EllipsisLiteral)), [])
  | .lambda _ _ _ => Option.none
  | .call _ _ _ => Option.none
  | .attribute _ _ _ => Option.none
  | .tuple _ _ => Option.none
  | .other _ => Option.none

/-- Stage A over the elements of a subscript tuple slice, stopping at
the first failing element like the Rust question mark operator. -/
def annStageAList (scope : Scope) : ExprList → Option (Option AnnotList × List Diag)
  | .nil => Option.some (Option.some .nil, [])
  | .cons e es => do
    let (res, ds) ← annStageA scope e
    match res with
    | Option.none => pure (Option.none, ds)
    | Option.some a => do
      let (rest, ds2) ← annStageAList scope es
      match rest with
      | Option.none => pure (Option.none, ds ++ ds2)
      | Option.some as2 => pure (Option.some (.cons a as2), ds ++ ds2)
end

/-- The argument scan of the Literal case of verify_annotation: every
argument must be a realised literal type; the first offender produces
the expecting-literal error. -/
def literalScan : AnnotList → Except Diag TyList
  | .nil => .ok .nil
  | .cons (.typeA tr tv) rest =>
    (match tv with
    | .Literal l =>
      match literalScan rest with
      | .ok ls => .ok (.cons (.Literal l) ls)
      | .error d => .error d
    | otherTy => .error (.error ("Expecting literal, found " ++ tyToString otherTy) tr))
  | .cons (.partAnn pr kind _) _ =>
    .error (.error ("Expecting literal, found " ++ pakToString kind) pr)

/- Stage B, from src/synth/annotation.rs::verify_annotation.  The outer
Option is a panic (union can panic inside is_subtype); the Except layer
is the Rust Result whose Err is the diagnostic to report. -/
mutual
/-- Stage B: lower an annotation value to a type. -/
def verifyAnnot : Annot → Option (Except Diag Ty)
  | .typeA _ t => Option.some (.ok t)
  | .partAnn _ kind args =>
    match kind with
    | .Union => do
      let res ← verifyAnnotList args
      match res with
      | .error d => pure (.error d)
      | .ok ts => do
        let u ← union ts
        pure (.ok u)
    | .Literal =>
      match literalScan args with
      | .error d => Option.some (.error d)
      | .ok lits => do
        let u ← union lits
        pure (.ok u)
    | .Tuple => do
      let res ← verifyAnnotList args
      match res with
      | .error d => pure (.error d)
      | .ok ts => pure (.ok (.Tuple ts))

/-- Stage B over an argument list, stopping at the first Err. -/
def verifyAnnotList : AnnotList → Option (Except Diag TyList)
  | .nil => Option.some (.ok .nil)
  | .cons a rest => do
    let r ← verifyAnnot a
    match r with
    | .error d => pure (.error d)
    | .ok t => do
      let rr ← verifyAnnotList rest
      match rr with
      | .error d => pure (.error d)
      | .ok ts => pure (.ok (.cons t ts))
end

/-- Stage A on an optional annotation expression: a missing annotation
is a realised Unknown at the default range. -/
def annStageAOpt (scope : Scope) : Option Expr → Option (Option Annot × List Diag)
  | Option.none => Option.some (Option.some (.typeA ⟨0, 0⟩ Ty.Unknown), [])
  | Option.some ast => annStageA scope ast

/-- The public entry point synth_annotation: stage A, then stage B; on
either failure the reported type is Unknown, with the error appended to
the reporter.  none is a panic. -/
def synthAnnot (scope : Scope) (maybeAst : Option Expr) : Option (Ty × List Diag) := do
  let (res, ds) ← annStageAOpt scope maybeAst
  match res with
  | Option.none => pure (Ty.Unknown, ds)
  | Option.some ann => do
    let r ← verifyAnnot ann
    match r with
    | .ok t => pure (t, ds)
    | .error d => pure (Ty.Unknown, ds ++ [d])

/-- The active return context of the enclosing function, from
src/state.rs::StatementSynthDataReturn.  The Rust field `annotation`
carries the declared return type and is called retAnnot here. -/
structure SynthReturnData where
  retAnnot : Ty
  foundTypes : TyList
deriving DecidableEq, Repr

/-- A pending partial function, from src/state.rs::PartialItem (the
path is kept as its string form). -/
structure PartialItem where
  path : String
  itemName : String
deriving DecidableEq, Repr

/-- Per-walk carrier, from src/state.rs::StatementSynthData. -/
structure StatementSynthData where
  returns : Option SynthReturnData
  partialList : List PartialItem
deriving DecidableEq, Repr

/-- The checking session, from src/state.rs::Info; the reporter is
modeled by the diagnostic list threaded through SynthState. -/
structure Info where
  fileName : String
deriving DecidableEq, Repr

/-- The mutable state a statement acts on: the scope, the statement
walk data and the reporter contents. -/
structure SynthState where
  scope : Scope
  data : StatementSynthData
  diags : List Diag
deriving DecidableEq, Repr

/-- The hard-coded module table, from
src/synth/statement.rs::load_module. -/
def loadModule (path : String) : BindList :=
  match path with
  | "sys" =>
    .cons "version_info"
      (.Tuple (.cons (.Literal (.IntLiteral 3)) (.cons (.Literal (.IntLiteral 13)) .nil)))
      false .nil
  | "typing" =>
    .cons "reveal_type" (.Function (.cons .Any .nil) ["obj"] .Any) false .nil
  | _ => .nil

/-- The target loop of a plain assignment (the Stmt::Assign arm of
check_statement).  Each Name target re-synthesizes the assigned value;
a locked binding instead checks the value against the locked type and,
when the check fails, returns from the whole statement leaving the
binding untouched; when it succeeds the checked type is stored as a new
unlocked entry.  A non-Name target or a non-Store context panics. -/
def assignTargets (value : Expr) (st : SynthState) : List Expr → Option SynthState
  | [] => Option.some st
  | t :: rest =>
    match t with
    | .name _ nid nctx =>
      if nctx = .Store then
        match scopeGetTop st.scope nid with
        | Option.some sc =>
          if sc.isLocked then do
            let (res, ds) ← checkE st.scope value sc.typ
            match res with
            | Option.none => Option.some { st with diags := st.diags ++ ds }
            | Option.some typ =>
              assignTargets value
                { st with
                  scope := scopeSet st.scope nid (scopedNew typ)
                  diags := st.diags ++ ds } rest
          else do
            let (typ, ds) ← synthE st.scope value
            assignTargets value
              { st with
                scope := scopeSet st.scope nid (scopedNew typ)
                diags := st.diags ++ ds } rest
        | Option.none => do
          let (typ, ds) ← synthE st.scope value
          assignTargets value
            { st with
              scope := scopeSet st.scope nid (scopedNew typ)
              diags := st.diags ++ ds } rest
      else Option.none
    | _ => Option.none

/-- The parameter loop of check_func: each parameter annotation is
interpreted, a default value is checked against it (its checked type,
or Unknown on failure, becomes the parameter type), and the parameter
name is bound in the function frame.  Returns the parameter types, the
names, the extended scope and the appended diagnostics. -/
def funcParams : Scope → List (String × Option Expr × Option Expr) →
    Option (TyList × List String × Scope × List Diag)
  | scope, [] => Option.some (.nil, [], scope, [])
  | scope, (pname, annot, dflt) :: rest => do
    let (annTy, ds1) ← synthAnnot scope annot
    let (argTy, ds2) ←
      (match dflt with
      | Option.some d => do
        let (res, ds) ← checkE scope d annTy
        Option.some (res.getD Ty.Unknown, ds)
      | Option.none => Option.some (annTy, ([] : List Diag)))
    let scope1 := scopeSet scope pname (scopedNew annTy)
    let (ts, ns, scope2, ds3) ← funcParams scope1 rest
    pure (.cons argTy ts, pname :: ns, scope2, ds1 ++ ds2 ++ ds3)

/-- The alias loop of Stmt::Import: each alias binds the scope key
alias.name to a Module whose display name is the asname when given (the
alias itself is not used as the scope key). -/
def importAliases (st : SynthState) : List ImportAlias → SynthState
  | [] => st
  | a :: rest =>
    let modTy : Ty := .Module (a.asname.getD a.aliasName) (loadModule a.aliasName)
    importAliases { st with scope := scopeSet st.scope a.aliasName (scopedNew modTy) } rest

/-- The alias loop of Stmt::ImportFrom: bind each imported name found
in the loaded module (cloning its ScopedType, lock flag included);
a missing one reports name-not-in-scope on the alias range. -/
def importFromAliases (binds : BindList) (st : SynthState) : List ImportAlias → SynthState
  | [] => st
  | a :: rest =>
    match bindGet binds a.aliasName with
    | Option.none =>
      importFromAliases binds
        { st with diags := st.diags ++ [.notInScope a.aliasName a.range] } rest
    | Option.some (t, locked) =>
      importFromAliases binds
        { st with scope := scopeSet st.scope a.aliasName ⟨t, locked⟩ } rest

/- The statement checker, from
src/synth/statement.rs::check_statement, with check_func inlined in the
FunctionDef arm (check_func sets the args, arg_names and ret fields of
the partial function unconditionally, so the TryFrom conversion that
follows it always succeeds and the PartialFunction fallback with its
partial_list push is dead code on this path). -/
mutual
/-- check_statement of src/synth/statement.rs. -/
def checkStmt (info : Info) (st : SynthState) : Stmt → Option SynthState
  | .annAssign r target annotExpr value => do
    let (annTy, ds1) ← synthAnnot st.scope (Option.some annotExpr)
    let ds2 ←
      (match value with
      | Option.some v => do
        let (_, ds) ← checkE st.scope v annTy
        Option.some ds
      | Option.none => Option.some ([] : List Diag))
    match target with
    | .name _ nid nctx =>
      if nctx = .Store then
        let stMid := { st with diags := st.diags ++ ds1 ++ ds2 }
        match scopeGetTop st.scope nid with
        | Option.some sc =>
          if sc.isLocked then
            Option.some { stMid with diags :=
              stMid.diags ++ [.cantReassignLocked sc.typ annTy nid r] }
          else Option.some { stMid with scope := scopeSet st.scope nid (scopedLocked annTy) }
        | Option.none =>
          Option.some { stMid with scope := scopeSet st.scope nid (scopedLocked annTy) }
      else Option.none
    | _ => Option.none
  | .assign _ targets value => assignTargets value st targets
  | .exprStmt _ value => do
    let (_, ds) ← synthE st.scope value
    pure { st with diags := st.diags ++ ds }
  | .ret r value =>
    (match st.data.returns with
    | Option.none =>
      Option.some { st with diags :=
        st.diags ++ [.error "Can't return outside of function." r] }
    | Option.some returns => do
      let (retTy, ds) ←
        (match value with
        | Option.some v => do
          let (res, ds) ← checkE st.scope v returns.retAnnot
          Option.some (res.getD Ty.Unknown, ds)
        | Option.none => Option.some (Ty.None, ([] : List Diag)))
      let newFound := tyAppend returns.foundTypes (.cons retTy .nil)
      let newReturns := Option.some { returns with foundTypes := newFound }
      pure { st with
        data := { st.data with returns := newReturns }
        diags := st.diags ++ ds })
  | .functionDef _ fname params returnsAnn body => do
    let (expectedRet, ds1) ← synthAnnot st.scope returnsAnn
    let scope1 := scopeAddScope st.scope
    let (args, argNames, scope2, ds2) ← funcParams scope1 params
    let prev := st.data.returns
    let data1 := { st.data with returns := Option.some ⟨expectedRet, TyList.nil⟩ }
    let st2 ← checkStmtList info ⟨scope2, data1, st.diags ++ ds1 ++ ds2⟩ body
    let thisData ← st2.data.returns
    let retTy ← union thisData.foundTypes
    let scope3 ← scopePopScope st2.scope
    let funcTy := Ty.Function args argNames retTy
    pure { scope := scopeSet scope3 fname (scopedNew funcTy)
           data := { st2.data with returns := prev }
           diags := st2.diags }
  | .classDef _ cname =>
    Option.some { st with scope := scopeSet st.scope cname (scopedNew (.Class cname .nil .nil)) }
  | .importStmt _ names => Option.some (importAliases st names)
  | .importFrom _ module names =>
    (match module with
    | Option.none => Option.none
    | Option.some m => Option.some (importFromAliases (loadModule m) st names))
  | .pass _ => Option.some st
  | .other _ => Option.none

/-- The body loop of check_func over the statements of a function. -/
def checkStmtList (info : Info) (st : SynthState) : StmtList → Option SynthState
  | .nil => Option.some st
  | .cons s rest => do
    let st1 ← checkStmt info st s
    checkStmtList info st1 rest
end

/-- The statement checker entry point. -/
def checkStatement (info : Info) (st : SynthState) (s : Stmt) : Option SynthState :=
  checkStmt info st s

/-- The atom a literal reduces to in the literal arm of is_subtype;
none marks the unimplemented bytes case. -/
def litAtom : TypeLiteral → Option Ty
  | .StringLiteral _ => Option.some .String
  | .BytesLiteral _ => Option.none
  | .IntLiteral _ => Option.some .Int
  | .FloatLiteral _ => Option.some .Float
  | .BooleanLiteral _ => Option.some .Bool
  | .NoneLiteral => Option.some .None
  | .EllipsisLiteral => Option.some .Ellipsis

/-- Shapes that fall through to the final catch-all arm of is_subtype. -/
def subDefault (a b : Ty) : Bool :=
  match a, b with
  | .Literal _, _ => false
  | .Any, _ => false
  | .Unknown, _ => false
  | _, .Any => false
  | _, .Unknown => false
  | .Int, .Float => false
  | .Never, _ => false
  | .Union _, _ => false
  | _, .Union _ => false
  | .Function _ _ _, .Function _ _ _ => false
  | .Tuple _, .Tuple _ => false
  | _, _ => true

/-- The shapes that reach the any-scan of the right-union arm: not a
literal, not Any, Unknown or Never, not itself a union. -/
def unionRightOk (a : Ty) : Bool :=
  match a with
  | .Literal _ => false
  | .Any => false
  | .Unknown => false
  | .Never => false
  | .Union _ => false
  | _ => true

/-- No member of the list is a Union. -/
def tyListNoUnion : TyList → Bool
  | .nil => true
  | .cons t ts =>
    (match t with
    | .Union _ => false
    | _ => true) && tyListNoUnion ts

/-- A type is flat when, if it is a Union, none of its members is a
Union in turn. -/
def flatOk (t : Ty) : Bool :=
  match t with
  | .Union us => tyListNoUnion us
  | _ => true

/-- Every member of the list is flat. -/
def tyListFlatOk : TyList → Bool
  | .nil => true
  | .cons t ts => flatOk t && tyListFlatOk ts

/-- The flatness property the spec states of union results: the value
is not a Union having a Union among its members. -/
def noNestedUnion (t : Ty) : Bool :=
  match t with
  | .Union ts => tyListNoUnion ts
  | _ => true

/-- No bytes literal occurs in any member of the list. -/
def noBytesL : TyList → Bool
  | .nil => true
  | .cons t ts => noBytes t && noBytesL ts

/-- The spec's keep condition for the collapse pass, stated in its own
words: the arm t1 at index i1 is kept when, against every other arm, it
is not a subtype of that arm, or the two are mutually subtypes and t1
stands earlier in source order.  This is the spec-side formulation the
code's collapseCond is compared against. -/
def keptSpec (t1 : Ty) (i1 : Nat) (all : TyList) : Prop :=
  ∀ i2 t2, tyGet all i2 = Option.some t2 → i2 ≠ i1 →
    isSubtype t1 t2 ≠ Option.some true ∨
      (isSubtype t2 t1 = Option.some true ∧ i1 < i2)

/-- An annotation argument that is a realised literal type. -/
def annotIsLit : Annot → Bool
  | .typeA _ (.Literal _) => true
  | _ => false

/-- Every annotation argument is a realised literal type. -/
def annotAllLit : AnnotList → Bool
  | .nil => true
  | .cons a rest => annotIsLit a && annotAllLit rest

/-- A sequence of Scope::set operations, applied in order. -/
def scopeSets (s : Scope) : List (String × ScopedTy) → Scope
  | [] => s
  | (n, v) :: rest => scopeSets (scopeSet s n v) rest

theorem tyMem_cons {t u : Ty} {us : TyList} :
    tyMem t (.cons u us) ↔ t = u ∨ tyMem t us := by
  simp [tyMem, tyMemB]

theorem tyMem_nil {t : Ty} : ¬ tyMem t .nil := by
  simp [tyMem, tyMemB]

theorem tySize_pos (t : Ty) : 1 ≤ tySize t := by
  cases t <;> simp [tySize] <;> omega

theorem tySize_le_of_mem : ∀ {ts : TyList} {t : Ty}, tyMem t ts → tySize t ≤ tyListSize ts
  | .nil, t, h => absurd h tyMem_nil
  | .cons u us, t, h => by
    rcases tyMem_cons.1 h with h | h
    · subst h; simp [tyListSize]
    · have := tySize_le_of_mem h; simp [tyListSize]; omega

theorem optAllTy_congr {f g : Ty → Option Bool} :
    ∀ {ts}, (∀ t, tyMem t ts → f t = g t) → optAllTy f ts = optAllTy g ts
  | .nil, _ => rfl
  | .cons t ts, h => by
    have h1 := h t (tyMem_cons.2 (Or.inl rfl))
    have h2 : optAllTy f ts = optAllTy g ts :=
      optAllTy_congr fun u hu => h u (tyMem_cons.2 (Or.inr hu))
    simp only [optAllTy, h1, h2]

theorem optAnyTy_congr {f g : Ty → Option Bool} :
    ∀ {ts}, (∀ t, tyMem t ts → f t = g t) → optAnyTy f ts = optAnyTy g ts
  | .nil, _ => rfl
  | .cons t ts, h => by
    have h1 := h t (tyMem_cons.2 (Or.inl rfl))
    have h2 : optAnyTy f ts = optAnyTy g ts :=
      optAnyTy_congr fun u hu => h u (tyMem_cons.2 (Or.inr hu))
    simp only [optAnyTy, h1, h2]

theorem optZipAllTy_congr {f g : Ty → Ty → Option Bool} :
    ∀ {xs ys}, (∀ x y, tyMem x xs → tyMem y ys → f x y = g x y) →
      optZipAllTy f xs ys = optZipAllTy g xs ys
  | .nil, ys, _ => by cases ys <;> simp [optZipAllTy]
  | .cons _ _, .nil, _ => by simp [optZipAllTy]
  | .cons x xs, .cons y ys, h => by
    have h1 := h x y (tyMem_cons.2 (Or.inl rfl)) (tyMem_cons.2 (Or.inl rfl))
    have h2 : optZipAllTy f xs ys = optZipAllTy g xs ys :=
      optZipAllTy_congr fun a b ha hb =>
        h a b (tyMem_cons.2 (Or.inr ha)) (tyMem_cons.2 (Or.inr hb))
    simp only [optZipAllTy, h1, h2]

theorem isSubtypeF_stable : ∀ n m a b, tySize a + tySize b ≤ n → tySize a + tySize b ≤ m →
    isSubtypeF n a b = isSubtypeF m a b := by
  intro n
  induction n using Nat.strong_induction_on with
  | _ n ih =>
    intro m a b hn hm
    have ha := tySize_pos a
    have hb := tySize_pos b
    obtain ⟨n', rfl⟩ : ∃ k, n = k + 1 := ⟨n - 1, by omega⟩
    obtain ⟨m', rfl⟩ : ∃ k, m = k + 1 := ⟨m - 1, by omega⟩
    have key : ∀ x y, tySize x + tySize y ≤ n' → tySize x + tySize y ≤ m' →
        isSubtypeF n' x y = isSubtypeF m' x y := fun x y h1 h2 =>
      ih n' (Nat.lt_succ_self n') m' x y h1 h2
    simp only [isSubtypeF]
    by_cases hab : a = b
    · simp [hab]
    · simp only [if_neg hab]
      cases a with
      | Literal l =>
        cases l <;>
          first
          | rfl
          | (refine key _ _ ?_ ?_ <;> (simp only [tySize] at hn hm ⊢; omega))
      | Any => rfl
      | Unknown => rfl
      | Never => cases b <;> rfl
      | Union ts =>
        cases b <;>
          first
          | rfl
          | (refine optAllTy_congr fun t ht => ?_
             have hsz := tySize_le_of_mem ht
             refine key _ _ ?_ ?_ <;> (simp only [tySize] at hn hm ⊢; omega))
      | Function args1 ns1 ret1 =>
        cases b with
        | Union us =>
          refine optAnyTy_congr fun u hu => ?_
          have hsz := tySize_le_of_mem hu
          refine key _ _ ?_ ?_ <;> (simp only [tySize] at hn hm ⊢; omega)
        | Function args2 ns2 ret2 =>
          show (if tyLen args1 = tyLen args2 then
              match optZipAllTy (fun t2 t1 => isSubtypeF n' t2 t1) args2 args1 with
              | Option.none => Option.none
              | Option.some false => Option.some false
              | Option.some true => isSubtypeF n' ret1 ret2
            else Option.some false) =
            (if tyLen args1 = tyLen args2 then
              match optZipAllTy (fun t2 t1 => isSubtypeF m' t2 t1) args2 args1 with
              | Option.none => Option.none
              | Option.some false => Option.some false
              | Option.some true => isSubtypeF m' ret1 ret2
            else Option.some false)
          have hz : optZipAllTy (fun t2 t1 => isSubtypeF n' t2 t1) args2 args1 =
              optZipAllTy (fun t2 t1 => isSubtypeF m' t2 t1) args2 args1 :=
            optZipAllTy_congr fun x y hx hy => key x y
              (by
                have h1 := tySize_le_of_mem hx
                have h2 := tySize_le_of_mem hy
                simp only [tySize] at hn
                omega)
              (by
                have h1 := tySize_le_of_mem hx
                have h2 := tySize_le_of_mem hy
                simp only [tySize] at hm
                omega)
          rw [hz]
          have hr : isSubtypeF n' ret1 ret2 = isSubtypeF m' ret1 ret2 :=
            key ret1 ret2 (by simp only [tySize] at hn; omega)
              (by simp only [tySize] at hm; omega)
          rw [hr]
        | _ => rfl
      | Tuple ts1 =>
        cases b with
        | Union us =>
          refine optAnyTy_congr fun u hu => ?_
          have hsz := tySize_le_of_mem hu
          refine key _ _ ?_ ?_ <;> (simp only [tySize] at hn hm ⊢; omega)
        | Tuple ts2 =>
          show (if tyLen ts1 = tyLen ts2 then
              optZipAllTy (fun x y => isSubtypeF n' x y) ts1 ts2
            else Option.some false) =
            (if tyLen ts1 = tyLen ts2 then
              optZipAllTy (fun x y => isSubtypeF m' x y) ts1 ts2
            else Option.some false)
          have hz : optZipAllTy (fun x y => isSubtypeF n' x y) ts1 ts2 =
              optZipAllTy (fun x y => isSubtypeF m' x y) ts1 ts2 :=
            optZipAllTy_congr fun x y hx hy => key x y
              (by
                have h1 := tySize_le_of_mem hx
                have h2 := tySize_le_of_mem hy
                simp only [tySize] at hn
                omega)
              (by
                have h1 := tySize_le_of_mem hx
                have h2 := tySize_le_of_mem hy
                simp only [tySize] at hm
                omega)
          rw [hz]
        | _ => rfl
      | _ =>
        cases b <;>
          first
          | rfl
          | (refine optAnyTy_congr fun u hu => ?_
             have hsz := tySize_le_of_mem hu
             refine key _ _ ?_ ?_ <;> (simp only [tySize] at hn hm ⊢; omega))

/-- The fueled subtype test agrees with the wrapper whenever the fuel
covers the sizes. -/
theorem isSubtypeF_eq_isSubtype {n : Nat} {a b : Ty} (h : tySize a + tySize b ≤ n) :
    isSubtypeF n a b = isSubtype a b :=
  isSubtypeF_stable n (tySize a + tySize b) a b h (Nat.le_refl _)

theorem fuel_succ (a b : Ty) : ∃ k, tySize a + tySize b = k + 1 :=
  ⟨tySize a + tySize b - 1, by have := tySize_pos a; have := tySize_pos b; omega⟩

theorem isSubtype_eq {a b : Ty} (h : a = b) : isSubtype a b = Option.some true := by
  obtain ⟨k, hk⟩ := fuel_succ a b
  show isSubtypeF _ _ _ = _
  rw [hk]
  simp [isSubtypeF, h]

theorem isSubtype_refl (a : Ty) : isSubtype a a = Option.some true := isSubtype_eq rfl

theorem isSubtype_lit {l : TypeLiteral} {b : Ty} (h : Ty.Literal l ≠ b) :
    isSubtype (.Literal l) b =
      (match litAtom l with
      | Option.some atomTy => isSubtype atomTy b
      | Option.none => Option.none) := by
  obtain ⟨k, hk⟩ := fuel_succ (.Literal l) b
  show isSubtypeF _ _ _ = _
  rw [hk]
  simp only [isSubtypeF, if_neg h]
  have hb := tySize_pos b
  have hsz : tySize (Ty.Literal l) + tySize b = k + 1 := hk
  simp only [tySize] at hsz
  cases l <;>
    simp only [litAtom] <;>
    first
    | rfl
    | exact isSubtypeF_eq_isSubtype (by simp only [tySize]; omega)

theorem isSubtype_any_left (b : Ty) : isSubtype .Any b = Option.some true := by
  obtain ⟨k, hk⟩ := fuel_succ .Any b
  show isSubtypeF _ _ _ = _
  rw [hk]
  by_cases h : Ty.Any = b
  · simp [isSubtypeF, h]
  · simp only [isSubtypeF, if_neg h]

theorem isSubtype_unknown_left (b : Ty) : isSubtype .Unknown b = Option.some true := by
  obtain ⟨k, hk⟩ := fuel_succ .Unknown b
  show isSubtypeF _ _ _ = _
  rw [hk]
  by_cases h : Ty.Unknown = b
  · simp [isSubtypeF, h]
  · simp only [isSubtypeF, if_neg h]

theorem isSubtype_int_float : isSubtype .Int .Float = Option.some true := by decide

theorem isSubtype_default {a b : Ty} (h : a ≠ b) (hd : subDefault a b = true) :
    isSubtype a b = Option.some false := by
  obtain ⟨k, hk⟩ := fuel_succ a b
  show isSubtypeF _ _ _ = _
  rw [hk]
  simp only [isSubtypeF, if_neg h]
  cases a <;> cases b <;> simp_all [subDefault]

theorem isSubtype_never {b : Ty} (h1 : b ≠ .Never) (h2 : b ≠ .Any) (h3 : b ≠ .Unknown) :
    isSubtype .Never b = Option.some false := by
  obtain ⟨k, hk⟩ := fuel_succ .Never b
  show isSubtypeF _ _ _ = _
  rw [hk]
  have h : Ty.Never ≠ b := fun he => h1 he.symm
  simp only [isSubtypeF, if_neg h]

theorem isSubtype_union_left {ts : TyList} {b : Ty} (h : Ty.Union ts ≠ b)
    (h2 : b ≠ .Any) (h3 : b ≠ .Unknown) :
    isSubtype (.Union ts) b = optAllTy (fun t => isSubtype t b) ts := by
  obtain ⟨k, hk⟩ := fuel_succ (.Union ts) b
  show isSubtypeF _ _ _ = _
  rw [hk]
  simp only [isSubtypeF, if_neg h]
  have hcong : ∀ bb : Ty, bb = b →
      optAllTy (fun t => isSubtypeF k t bb) ts = optAllTy (fun t => isSubtype t bb) ts := by
    intro bb hbb
    subst hbb
    refine optAllTy_congr fun t ht => ?_
    have := tySize_le_of_mem ht
    exact isSubtypeF_eq_isSubtype (by simp only [tySize] at hk; omega)
  cases b <;> simp_all

theorem isSubtype_union_right {a : Ty} {us : TyList} (ha : unionRightOk a = true) :
    isSubtype a (.Union us) = optAnyTy (fun u => isSubtype a u) us := by
  obtain ⟨k, hk⟩ := fuel_succ a (.Union us)
  show isSubtypeF _ _ _ = _
  rw [hk]
  have h : a ≠ Ty.Union us := by
    cases a <;> simp_all [unionRightOk]
  simp only [isSubtypeF, if_neg h]
  have hcong : ∀ aa : Ty, aa = a →
      optAnyTy (fun u => isSubtypeF k aa u) us = optAnyTy (fun u => isSubtype aa u) us := by
    intro aa haa
    subst haa
    refine optAnyTy_congr fun u hu => ?_
    have := tySize_le_of_mem hu
    exact isSubtypeF_eq_isSubtype (by simp only [tySize] at hk; omega)
  cases a <;> simp_all [unionRightOk]

theorem isSubtype_fn {args1 ns1 ret1 args2 ns2 ret2}
    (h : Ty.Function args1 ns1 ret1 ≠ Ty.Function args2 ns2 ret2) :
    isSubtype (.Function args1 ns1 ret1) (.Function args2 ns2 ret2) =
      (if tyLen args1 = tyLen args2 then
        match optZipAllTy (fun t2 t1 => isSubtype t2 t1) args2 args1 with
        | Option.none => Option.none
        | Option.some false => Option.some false
        | Option.some true => isSubtype ret1 ret2
      else Option.some false) := by
  obtain ⟨k, hk⟩ := fuel_succ (.Function args1 ns1 ret1) (.Function args2 ns2 ret2)
  show isSubtypeF _ _ _ = _
  rw [hk]
  simp only [isSubtypeF, if_neg h]
  show (if tyLen args1 = tyLen args2 then
      match optZipAllTy (fun t2 t1 => isSubtypeF k t2 t1) args2 args1 with
      | Option.none => Option.none
      | Option.some false => Option.some false
      | Option.some true => isSubtypeF k ret1 ret2
    else Option.some false) = _
  simp only [tySize] at hk
  have hz : optZipAllTy (fun t2 t1 => isSubtypeF k t2 t1) args2 args1 =
      optZipAllTy (fun t2 t1 => isSubtype t2 t1) args2 args1 :=
    optZipAllTy_congr fun x y hx hy => by
      have h1 := tySize_le_of_mem hx
      have h2 := tySize_le_of_mem hy
      exact isSubtypeF_eq_isSubtype (by omega)
  rw [hz]
  have hr : isSubtypeF k ret1 ret2 = isSubtype ret1 ret2 :=
    isSubtypeF_eq_isSubtype (by omega)
  rw [hr]

theorem isSubtype_tuple {ts1 ts2 : TyList} (h : Ty.Tuple ts1 ≠ Ty.Tuple ts2) :
    isSubtype (.Tuple ts1) (.Tuple ts2) =
      (if tyLen ts1 = tyLen ts2 then optZipAllTy (fun x y => isSubtype x y) ts1 ts2
      else Option.some false) := by
  obtain ⟨k, hk⟩ := fuel_succ (.Tuple ts1) (.Tuple ts2)
  show isSubtypeF _ _ _ = _
  rw [hk]
  simp only [isSubtypeF, if_neg h]
  show (if tyLen ts1 = tyLen ts2 then
      optZipAllTy (fun x y => isSubtypeF k x y) ts1 ts2
    else Option.some false) = _
  simp only [tySize] at hk
  have hz : optZipAllTy (fun x y => isSubtypeF k x y) ts1 ts2 =
      optZipAllTy (fun x y => isSubtype x y) ts1 ts2 :=
    optZipAllTy_congr fun x y hx hy => by
      have h1 := tySize_le_of_mem hx
      have h2 := tySize_le_of_mem hy
      exact isSubtypeF_eq_isSubtype (by omega)
  rw [hz]

theorem optAllTy_some_true {f : Ty → Option Bool} :
    ∀ {ts}, optAllTy f ts = Option.some true ↔ ∀ t, tyMem t ts → f t = Option.some true
  | .nil => by simp [optAllTy, tyMem_nil]
  | .cons t ts => by
    constructor
    · intro h u hu
      rcases tyMem_cons.1 hu with hu | hu
      · subst hu
        cases hft : f u with
        | none => rw [optAllTy, hft] at h; exact absurd h (by simp)
        | some v =>
          cases v
          · rw [optAllTy, hft] at h; exact absurd h (by simp)
          · rfl
      · cases hft : f t with
        | none => rw [optAllTy, hft] at h; exact absurd h (by simp)
        | some v =>
          cases v
          · rw [optAllTy, hft] at h; exact absurd h (by simp)
          · rw [optAllTy, hft] at h
            exact optAllTy_some_true.1 h u hu
    · intro h
      have h1 := h t (tyMem_cons.2 (Or.inl rfl))
      rw [optAllTy, h1]
      exact optAllTy_some_true.2 fun u hu => h u (tyMem_cons.2 (Or.inr hu))

theorem optAnyTy_some_true_elim {f : Ty → Option Bool} :
    ∀ {ts}, optAnyTy f ts = Option.some true → ∃ t, tyMem t ts ∧ f t = Option.some true
  | .nil => by simp [optAnyTy]
  | .cons t ts => by
    intro h
    cases hft : f t with
    | none => rw [optAnyTy, hft] at h; exact absurd h (by simp)
    | some v =>
      cases v
      · rw [optAnyTy, hft] at h
        obtain ⟨u, hu, hfu⟩ := optAnyTy_some_true_elim h
        exact ⟨u, tyMem_cons.2 (Or.inr hu), hfu⟩
      · exact ⟨t, tyMem_cons.2 (Or.inl rfl), hft⟩

theorem optAnyTy_some_true_intro {f : Ty → Option Bool} :
    ∀ {ts}, (∀ t, tyMem t ts → (f t).isSome) →
      (∃ t, tyMem t ts ∧ f t = Option.some true) → optAnyTy f ts = Option.some true
  | .nil => by simp [tyMem_nil]
  | .cons t ts => by
    intro hdef ⟨u, hu, hfu⟩
    cases hft : f t with
    | none =>
      have := hdef t (tyMem_cons.2 (Or.inl rfl))
      rw [hft] at this
      exact absurd this (by simp)
    | some v =>
      cases v
      · rw [optAnyTy, hft]
        rcases tyMem_cons.1 hu with hu | hu
        · subst hu; rw [hfu] at hft; exact absurd hft (by simp)
        · exact optAnyTy_some_true_intro
            (fun x hx => hdef x (tyMem_cons.2 (Or.inr hx))) ⟨u, hu, hfu⟩
      · rw [optAnyTy, hft]

theorem tyGet_mem : ∀ {ts : TyList} {i : Nat} {t : Ty}, tyGet ts i = Option.some t → tyMem t ts
  | .nil, i, t => by simp [tyGet]
  | .cons u us, 0, t => by
    intro h
    simp only [tyGet] at h
    exact tyMem_cons.2 (Or.inl (by cases h; rfl))
  | .cons u us, i + 1, t => fun h => tyMem_cons.2 (Or.inr (tyGet_mem h))

theorem optZipAllTy_some_true {f : Ty → Ty → Option Bool} :
    ∀ {xs ys}, tyLen xs = tyLen ys →
      (optZipAllTy f xs ys = Option.some true ↔
        ∀ i x y, tyGet xs i = Option.some x → tyGet ys i = Option.some y →
          f x y = Option.some true)
  | .nil, ys => by
    intro hlen
    cases ys with
    | nil => simp [optZipAllTy, tyGet]
    | cons y ys => simp [tyLen] at hlen
  | .cons x xs, .nil => by intro hlen; simp [tyLen] at hlen
  | .cons x xs, .cons y ys => by
    intro hlen
    simp only [tyLen] at hlen
    constructor
    · intro h i u v hu hv
      cases hfx : f x y with
      | none => rw [optZipAllTy, hfx] at h; exact absurd h (by simp)
      | some b =>
        cases b
        · rw [optZipAllTy, hfx] at h; exact absurd h (by simp)
        · rw [optZipAllTy, hfx] at h
          cases i with
          | zero =>
            simp only [tyGet] at hu hv
            cases hu; cases hv; exact hfx
          | succ i =>
            simp only [tyGet] at hu hv
            exact (optZipAllTy_some_true (by omega)).1 h i u v hu hv
    · intro h
      have h0 := h 0 x y (by simp [tyGet]) (by simp [tyGet])
      rw [optZipAllTy, h0]
      exact (optZipAllTy_some_true (by omega)).2 fun i u v hu hv =>
        h (i + 1) u v (by simp [tyGet, hu]) (by simp [tyGet, hv])

theorem optAllTy_isSome {f : Ty → Option Bool} :
    ∀ {ts}, (∀ t, tyMem t ts → (f t).isSome) → (optAllTy f ts).isSome
  | .nil, _ => by simp [optAllTy]
  | .cons t ts, h => by
    cases hft : f t with
    | none =>
      have := h t (tyMem_cons.2 (Or.inl rfl))
      rw [hft] at this
      exact absurd this (by simp)
    | some v =>
      cases v
      · simp [optAllTy, hft]
      · rw [optAllTy, hft]
        exact optAllTy_isSome fun u hu => h u (tyMem_cons.2 (Or.inr hu))

theorem optAnyTy_isSome {f : Ty → Option Bool} :
    ∀ {ts}, (∀ t, tyMem t ts → (f t).isSome) → (optAnyTy f ts).isSome
  | .nil, _ => by simp [optAnyTy]
  | .cons t ts, h => by
    cases hft : f t with
    | none =>
      have := h t (tyMem_cons.2 (Or.inl rfl))
      rw [hft] at this
      exact absurd this (by simp)
    | some v =>
      cases v
      · rw [optAnyTy, hft]
        exact optAnyTy_isSome fun u hu => h u (tyMem_cons.2 (Or.inr hu))
      · simp [optAnyTy, hft]

theorem optZipAllTy_isSome {f : Ty → Ty → Option Bool} :
    ∀ {xs ys}, (∀ x y, tyMem x xs → tyMem y ys → (f x y).isSome) →
      (optZipAllTy f xs ys).isSome
  | .nil, ys, _ => by cases ys <;> simp [optZipAllTy]
  | .cons x xs, .nil, _ => by simp [optZipAllTy]
  | .cons x xs, .cons y ys, h => by
    cases hfx : f x y with
    | none =>
      have := h x y (tyMem_cons.2 (Or.inl rfl)) (tyMem_cons.2 (Or.inl rfl))
      rw [hfx] at this
      exact absurd this (by simp)
    | some v =>
      cases v
      · simp [optZipAllTy, hfx]
      · rw [optZipAllTy, hfx]
        exact optZipAllTy_isSome fun a b ha hb =>
          h a b (tyMem_cons.2 (Or.inr ha)) (tyMem_cons.2 (Or.inr hb))

theorem listAllNodes_mem {p : Ty → Bool} :
    ∀ {ts t}, tyListAllNodes p ts = true → tyMem t ts → tyAllNodes p t = true
  | .nil, t, _, ht => absurd ht tyMem_nil
  | .cons u us, t, h, ht => by
    simp only [tyListAllNodes, Bool.and_eq_true] at h
    rcases tyMem_cons.1 ht with he | hm
    · subst he; exact h.1
    · exact listAllNodes_mem h.2 hm

theorem allNodes_union {p : Ty → Bool} {ts : TyList} (h : tyAllNodes p (.Union ts) = true) :
    tyListAllNodes p ts = true := by
  simp only [tyAllNodes, Bool.and_eq_true] at h
  exact h.2

theorem allNodes_tuple {p : Ty → Bool} {ts : TyList} (h : tyAllNodes p (.Tuple ts) = true) :
    tyListAllNodes p ts = true := by
  simp only [tyAllNodes, Bool.and_eq_true] at h
  exact h.2

theorem allNodes_fn {p : Ty → Bool} {args ns ret} (h : tyAllNodes p (.Function args ns ret) = true) :
    tyListAllNodes p args = true ∧ tyAllNodes p ret = true := by
  simp only [tyAllNodes, Bool.and_eq_true] at h
  exact h.2

theorem isSubtype_any_right {a : Ty} (h : ∀ l, a ≠ .Literal l) :
    isSubtype a .Any = Option.some true := by
  by_cases he : a = .Any
  · subst he; exact isSubtype_any_left .Any
  · obtain ⟨k, hk⟩ := fuel_succ a .Any
    show isSubtypeF _ _ _ = _
    rw [hk]
    simp only [isSubtypeF, if_neg he]
    cases a <;> first | exact absurd rfl (h _) | exact absurd rfl he | rfl

theorem isSubtype_unknown_right {a : Ty} (h : ∀ l, a ≠ .Literal l) :
    isSubtype a .Unknown = Option.some true := by
  by_cases he : a = .Unknown
  · subst he; exact isSubtype_unknown_left .Unknown
  · obtain ⟨k, hk⟩ := fuel_succ a .Unknown
    show isSubtypeF _ _ _ = _
    rw [hk]
    simp only [isSubtypeF, if_neg he]
    cases a <;> first | exact absurd rfl (h _) | exact absurd rfl he | rfl

theorem isSubtype_isSome_n : ∀ n a b, tySize a + tySize b ≤ n →
    noBytes a = true → noBytes b = true → (isSubtype a b).isSome := by
  intro n
  induction n using Nat.strong_induction_on with
  | _ n ih =>
    intro a b hn hA hB
    have IH : ∀ x y, tySize x + tySize y < n → noBytes x = true → noBytes y = true →
        (isSubtype x y).isSome := fun x y hxy => ih (tySize x + tySize y) hxy x y (le_refl _)
    by_cases hab : a = b
    · simp [isSubtype_eq hab]
    cases a with
    | Literal l =>
      rw [isSubtype_lit hab]
      cases l with
      | BytesLiteral bs => simp [noBytes, tyAllNodes] at hA
      | StringLiteral s =>
        simp only [litAtom]
        refine IH _ _ ?_ (by decide) hB
        simp only [tySize] at hn ⊢
        omega
      | IntLiteral i =>
        simp only [litAtom]
        refine IH _ _ ?_ (by decide) hB
        simp only [tySize] at hn ⊢
        omega
      | FloatLiteral s =>
        simp only [litAtom]
        refine IH _ _ ?_ (by decide) hB
        simp only [tySize] at hn ⊢
        omega
      | BooleanLiteral bv =>
        simp only [litAtom]
        refine IH _ _ ?_ (by decide) hB
        simp only [tySize] at hn ⊢
        omega
      | NoneLiteral =>
        simp only [litAtom]
        refine IH _ _ ?_ (by decide) hB
        simp only [tySize] at hn ⊢
        omega
      | EllipsisLiteral =>
        simp only [litAtom]
        refine IH _ _ ?_ (by decide) hB
        simp only [tySize] at hn ⊢
        omega
    | Any => simp [isSubtype_any_left]
    | Unknown => simp [isSubtype_unknown_left]
    | Never =>
      by_cases hbN : b = .Never
      · exact absurd hbN.symm hab
      by_cases hbA : b = .Any
      · subst hbA; simp [isSubtype_any_right (a := Ty.Never) (by simp)]
      by_cases hbU : b = .Unknown
      · subst hbU; simp [isSubtype_unknown_right (a := Ty.Never) (by simp)]
      simp [isSubtype_never hbN hbA hbU]
    | Union ts =>
      by_cases hbA : b = .Any
      · subst hbA; simp [isSubtype_any_right (a := Ty.Union ts) (by simp)]
      by_cases hbU : b = .Unknown
      · subst hbU; simp [isSubtype_unknown_right (a := Ty.Union ts) (by simp)]
      rw [isSubtype_union_left hab hbA hbU]
      apply optAllTy_isSome
      intro t ht
      refine IH _ _ ?_ (listAllNodes_mem (allNodes_union hA) ht) hB
      have := tySize_le_of_mem ht
      simp only [tySize] at hn ⊢
      omega
    | Function args1 ns1 ret1 =>
      cases b with
      | Any => rw [isSubtype_any_right (by simp)]; rfl
      | Unknown => rw [isSubtype_unknown_right (by simp)]; rfl
      | Union us =>
        rw [isSubtype_union_right (by rfl)]
        apply optAnyTy_isSome
        intro u hu
        refine IH _ _ ?_ hA (listAllNodes_mem (allNodes_union hB) hu)
        have := tySize_le_of_mem hu
        simp only [tySize] at hn ⊢
        omega
      | Function args2 ns2 ret2 =>
        rw [isSubtype_fn hab]
        split
        · have hz : (optZipAllTy (fun t2 t1 => isSubtype t2 t1) args2 args1).isSome := by
            apply optZipAllTy_isSome
            intro x y hx hy
            refine IH _ _ ?_ (listAllNodes_mem (allNodes_fn hB).1 hx)
              (listAllNodes_mem (allNodes_fn hA).1 hy)
            have h1 := tySize_le_of_mem hx
            have h2 := tySize_le_of_mem hy
            simp only [tySize] at hn ⊢
            omega
          cases hzv : optZipAllTy (fun t2 t1 => isSubtype t2 t1) args2 args1 with
          | none => rw [hzv] at hz; exact absurd hz (by simp)
          | some v =>
            cases v
            · simp
            · refine IH _ _ ?_ (allNodes_fn hA).2 (allNodes_fn hB).2
              simp only [tySize] at hn ⊢
              omega
        · rfl
      | _ => rw [isSubtype_default hab (by rfl)]; rfl
    | Tuple ts1 =>
      cases b with
      | Any => rw [isSubtype_any_right (by simp)]; rfl
      | Unknown => rw [isSubtype_unknown_right (by simp)]; rfl
      | Union us =>
        rw [isSubtype_union_right (by rfl)]
        apply optAnyTy_isSome
        intro u hu
        refine IH _ _ ?_ hA (listAllNodes_mem (allNodes_union hB) hu)
        have := tySize_le_of_mem hu
        simp only [tySize] at hn ⊢
        omega
      | Tuple ts2 =>
        rw [isSubtype_tuple hab]
        split
        · apply optZipAllTy_isSome
          intro x y hx hy
          refine IH _ _ ?_ (listAllNodes_mem (allNodes_tuple hA) hx)
            (listAllNodes_mem (allNodes_tuple hB) hy)
          have h1 := tySize_le_of_mem hx
          have h2 := tySize_le_of_mem hy
          simp only [tySize] at hn ⊢
          omega
        · rfl
      | _ => rw [isSubtype_default hab (by rfl)]; rfl
    | _ =>
      cases b <;>
        first
        | exact absurd rfl hab
        | simp [isSubtype_int_float]
        | (rw [isSubtype_any_right (by simp)]; rfl)
        | (rw [isSubtype_unknown_right (by simp)]; rfl)
        | (rw [isSubtype_default hab (by rfl)]; rfl)
        | (rw [isSubtype_union_right (by rfl)]
           apply optAnyTy_isSome
           intro u hu
           refine IH _ _ ?_ hA (listAllNodes_mem (allNodes_union hB) hu)
           have := tySize_le_of_mem hu
           simp only [tySize] at hn ⊢
           omega)

/-- On bytes-free types is_subtype never panics. -/
theorem isSubtype_isSome {a b : Ty} (hA : noBytes a = true) (hB : noBytes b = true) :
    (isSubtype a b).isSome :=
  isSubtype_isSome_n (tySize a + tySize b) a b (le_refl _) hA hB

theorem tyGet_isSome_of_lt : ∀ {ts : TyList} {i : Nat}, i < tyLen ts →
    ∃ t, tyGet ts i = Option.some t
  | .nil, i, h => by simp [tyLen] at h
  | .cons u us, 0, _ => ⟨u, rfl⟩
  | .cons u us, i + 1, h => by
    simp only [tyLen] at h
    obtain ⟨t, ht⟩ := @tyGet_isSome_of_lt us i (by omega)
    exact ⟨t, ht⟩

theorem tyGet_lt_of_some : ∀ {ts : TyList} {i : Nat} {t : Ty},
    tyGet ts i = Option.some t → i < tyLen ts
  | .nil, i, t, h => by simp [tyGet] at h
  | .cons u us, 0, t, _ => by simp only [tyLen]; omega
  | .cons u us, i + 1, t, h => by
    have := @tyGet_lt_of_some us i t h
    simp only [tyLen]
    omega

theorem noAU_not_any {t : Ty} (h : noAnyUnknown t = true) : t ≠ .Any := by
  intro he
  subst he
  simp [noAnyUnknown, tyAllNodes] at h

theorem noAU_not_unknown {t : Ty} (h : noAnyUnknown t = true) : t ≠ .Unknown := by
  intro he
  subst he
  simp [noAnyUnknown, tyAllNodes] at h

theorem isSubtype_trans_n : ∀ n a b c, tySize a + tySize b + tySize c ≤ n →
    noAnyUnknown a = true → noAnyUnknown b = true → noAnyUnknown c = true →
    noBytes a = true → noBytes b = true → noBytes c = true →
    isSubtype a b = Option.some true → isSubtype b c = Option.some true →
    isSubtype a c = Option.some true := by
  intro n
  induction n using Nat.strong_induction_on with
  | _ n ih =>
    intro a b c hn hAUa hAUb hAUc hBa hBb hBc Rab Rbc
    have IH : ∀ x y z, tySize x + tySize y + tySize z < n →
        noAnyUnknown x = true → noAnyUnknown y = true → noAnyUnknown z = true →
        noBytes x = true → noBytes y = true → noBytes z = true →
        isSubtype x y = Option.some true → isSubtype y z = Option.some true →
        isSubtype x z = Option.some true := fun x y z hxyz =>
      ih (tySize x + tySize y + tySize z) hxyz x y z (le_refl _)
    by_cases hab : a = b
    · subst hab; exact Rbc
    by_cases hbc : b = c
    · subst hbc; exact Rab
    by_cases hac : a = c
    · subst hac; exact isSubtype_refl a
    have haA := noAU_not_any hAUa
    have haU := noAU_not_unknown hAUa
    have hbA := noAU_not_any hAUb
    have hbU := noAU_not_unknown hAUb
    have hcA := noAU_not_any hAUc
    have hcU := noAU_not_unknown hAUc
    cases a with
    | Any => exact absurd rfl haA
    | Unknown => exact absurd rfl haU
    | Never =>
      rw [isSubtype_never (fun h => hab h.symm) hbA hbU] at Rab
      exact absurd Rab (by simp)
    | Literal l =>
      rw [isSubtype_lit hab] at Rab
      rw [isSubtype_lit hac]
      cases l with
      | BytesLiteral bs => simp [noBytes, tyAllNodes] at hBa
      | StringLiteral s =>
        simp only [litAtom] at Rab ⊢
        refine IH _ b c ?_ (by decide) hAUb hAUc (by decide) hBb hBc Rab Rbc
        simp only [tySize] at hn ⊢
        omega
      | IntLiteral i =>
        simp only [litAtom] at Rab ⊢
        refine IH _ b c ?_ (by decide) hAUb hAUc (by decide) hBb hBc Rab Rbc
        simp only [tySize] at hn ⊢
        omega
      | FloatLiteral s =>
        simp only [litAtom] at Rab ⊢
        refine IH _ b c ?_ (by decide) hAUb hAUc (by decide) hBb hBc Rab Rbc
        simp only [tySize] at hn ⊢
        omega
      | BooleanLiteral bv =>
        simp only [litAtom] at Rab ⊢
        refine IH _ b c ?_ (by decide) hAUb hAUc (by decide) hBb hBc Rab Rbc
        simp only [tySize] at hn ⊢
        omega
      | NoneLiteral =>
        simp only [litAtom] at Rab ⊢
        refine IH _ b c ?_ (by decide) hAUb hAUc (by decide) hBb hBc Rab Rbc
        simp only [tySize] at hn ⊢
        omega
      | EllipsisLiteral =>
        simp only [litAtom] at Rab ⊢
        refine IH _ b c ?_ (by decide) hAUb hAUc (by decide) hBb hBc Rab Rbc
        simp only [tySize] at hn ⊢
        omega
    | Union ts =>
      rw [isSubtype_union_left hab hbA hbU] at Rab
      rw [isSubtype_union_left hac hcA hcU]
      rw [optAllTy_some_true] at Rab ⊢
      intro t ht
      refine IH t b c ?_ (listAllNodes_mem (allNodes_union hAUa) ht) hAUb hAUc
        (listAllNodes_mem (allNodes_union hBa) ht) hBb hBc (Rab t ht) Rbc
      have := tySize_le_of_mem ht
      simp only [tySize] at hn ⊢
      omega
    | Function args1 ns1 ret1 =>
      cases b with
      | Any => exact absurd rfl hbA
      | Unknown => exact absurd rfl hbU
      | Union vs =>
        rw [isSubtype_union_right (by rfl)] at Rab
        obtain ⟨v, hv, hRav⟩ := optAnyTy_some_true_elim Rab
        rw [isSubtype_union_left hbc hcA hcU] at Rbc
        have hRvc := optAllTy_some_true.1 Rbc v hv
        refine IH _ v c ?_ hAUa (listAllNodes_mem (allNodes_union hAUb) hv) hAUc
          hBa (listAllNodes_mem (allNodes_union hBb) hv) hBc hRav hRvc
        have := tySize_le_of_mem hv
        simp only [tySize] at hn ⊢
        omega
      | Function args2 ns2 ret2 =>
        cases c with
        | Any => exact absurd rfl hcA
        | Unknown => exact absurd rfl hcU
        | Union us =>
          rw [isSubtype_union_right (by rfl)] at Rbc
          obtain ⟨u, hu, hRbu⟩ := optAnyTy_some_true_elim Rbc
          have hRau : isSubtype (.Function args1 ns1 ret1) u = Option.some true := by
            refine IH _ _ u ?_ hAUa hAUb (listAllNodes_mem (allNodes_union hAUc) hu)
              hBa hBb (listAllNodes_mem (allNodes_union hBc) hu) Rab hRbu
            have := tySize_le_of_mem hu
            simp only [tySize] at hn ⊢
            omega
          rw [isSubtype_union_right (by rfl)]
          refine optAnyTy_some_true_intro ?_ ⟨u, hu, hRau⟩
          intro w hw
          exact isSubtype_isSome hBa (listAllNodes_mem (allNodes_union hBc) hw)
        | Function args3 ns3 ret3 =>
          rw [isSubtype_fn hab] at Rab
          rw [isSubtype_fn hbc] at Rbc
          rw [isSubtype_fn hac]
          have hlen1 : tyLen args1 = tyLen args2 := by
            by_contra hne
            rw [if_neg hne] at Rab
            exact absurd Rab (by simp)
          rw [if_pos hlen1] at Rab
          have hlen2 : tyLen args2 = tyLen args3 := by
            by_contra hne
            rw [if_neg hne] at Rbc
            exact absurd Rbc (by simp)
          rw [if_pos hlen2] at Rbc
          cases hz21 : optZipAllTy (fun t2 t1 => isSubtype t2 t1) args2 args1 with
          | none => rw [hz21] at Rab; exact absurd Rab (by simp)
          | some v21 =>
            rw [hz21] at Rab
            cases v21 with
            | false => exact absurd Rab (by simp)
            | true =>
            cases hz32 : optZipAllTy (fun t2 t1 => isSubtype t2 t1) args3 args2 with
            | none => rw [hz32] at Rbc; exact absurd Rbc (by simp)
            | some v32 =>
              rw [hz32] at Rbc
              cases v32 with
              | false => exact absurd Rbc (by simp)
              | true =>
              rw [if_pos (hlen1.trans hlen2)]
              have hz31 : optZipAllTy (fun t2 t1 => isSubtype t2 t1) args3 args1 =
                  Option.some true := by
                rw [optZipAllTy_some_true (hlen1.trans hlen2).symm]
                intro i x y hx hy
                obtain ⟨m, hm⟩ := @tyGet_isSome_of_lt args2 i
                  (by rw [hlen2]; exact tyGet_lt_of_some hx)
                have h32 := (optZipAllTy_some_true (by rw [hlen2])).1 hz32 i x m hx hm
                have h21 := (optZipAllTy_some_true (by rw [hlen1])).1 hz21 i m y hm hy
                have hmx := tyGet_mem hx
                have hmm := tyGet_mem hm
                have hmy := tyGet_mem hy
                refine IH x m y ?_
                  (listAllNodes_mem (allNodes_fn hAUc).1 hmx)
                  (listAllNodes_mem (allNodes_fn hAUb).1 hmm)
                  (listAllNodes_mem (allNodes_fn hAUa).1 hmy)
                  (listAllNodes_mem (allNodes_fn hBc).1 hmx)
                  (listAllNodes_mem (allNodes_fn hBb).1 hmm)
                  (listAllNodes_mem (allNodes_fn hBa).1 hmy)
                  h32 h21
                have s1 := tySize_le_of_mem hmx
                have s2 := tySize_le_of_mem hmm
                have s3 := tySize_le_of_mem hmy
                simp only [tySize] at hn ⊢
                omega
              rw [hz31]
              show isSubtype ret1 ret3 = Option.some true
              refine IH ret1 ret2 ret3 ?_
                (allNodes_fn hAUa).2 (allNodes_fn hAUb).2 (allNodes_fn hAUc).2
                (allNodes_fn hBa).2 (allNodes_fn hBb).2 (allNodes_fn hBc).2 Rab Rbc
              simp only [tySize] at hn ⊢
              omega
        | _ =>
          rw [isSubtype_default hbc (by rfl)] at Rbc
          exact absurd Rbc (by simp)
      | _ =>
        rw [isSubtype_default hab (by rfl)] at Rab
        exact absurd Rab (by simp)
    | Tuple ts1 =>
      cases b with
      | Any => exact absurd rfl hbA
      | Unknown => exact absurd rfl hbU
      | Union vs =>
        rw [isSubtype_union_right (by rfl)] at Rab
        obtain ⟨v, hv, hRav⟩ := optAnyTy_some_true_elim Rab
        rw [isSubtype_union_left hbc hcA hcU] at Rbc
        have hRvc := optAllTy_some_true.1 Rbc v hv
        refine IH _ v c ?_ hAUa (listAllNodes_mem (allNodes_union hAUb) hv) hAUc
          hBa (listAllNodes_mem (allNodes_union hBb) hv) hBc hRav hRvc
        have := tySize_le_of_mem hv
        simp only [tySize] at hn ⊢
        omega
      | Tuple ts2 =>
        cases c with
        | Any => exact absurd rfl hcA
        | Unknown => exact absurd rfl hcU
        | Union us =>
          rw [isSubtype_union_right (by rfl)] at Rbc
          obtain ⟨u, hu, hRbu⟩ := optAnyTy_some_true_elim Rbc
          have hRau : isSubtype (.Tuple ts1) u = Option.some true := by
            refine IH _ _ u ?_ hAUa hAUb (listAllNodes_mem (allNodes_union hAUc) hu)
              hBa hBb (listAllNodes_mem (allNodes_union hBc) hu) Rab hRbu
            have := tySize_le_of_mem hu
            simp only [tySize] at hn ⊢
            omega
          rw [isSubtype_union_right (by rfl)]
          refine optAnyTy_some_true_intro ?_ ⟨u, hu, hRau⟩
          intro w hw
          exact isSubtype_isSome hBa (listAllNodes_mem (allNodes_union hBc) hw)
        | Tuple ts3 =>
          rw [isSubtype_tuple hab] at Rab
          rw [isSubtype_tuple hbc] at Rbc
          rw [isSubtype_tuple hac]
          have hlen1 : tyLen ts1 = tyLen ts2 := by
            by_contra hne
            rw [if_neg hne] at Rab
            exact absurd Rab (by simp)
          rw [if_pos hlen1] at Rab
          have hlen2 : tyLen ts2 = tyLen ts3 := by
            by_contra hne
            rw [if_neg hne] at Rbc
            exact absurd Rbc (by simp)
          rw [if_pos hlen2] at Rbc
          rw [if_pos (hlen1.trans hlen2)]
          rw [optZipAllTy_some_true (hlen1.trans hlen2)]
          intro i x y hx hy
          obtain ⟨m, hm⟩ := @tyGet_isSome_of_lt ts2 i
            (by rw [← hlen1]; exact tyGet_lt_of_some hx)
          have h12 := (optZipAllTy_some_true hlen1).1 Rab i x m hx hm
          have h23 := (optZipAllTy_some_true hlen2).1 Rbc i m y hm hy
          have hmx := tyGet_mem hx
          have hmm := tyGet_mem hm
          have hmy := tyGet_mem hy
          refine IH x m y ?_
            (listAllNodes_mem (allNodes_tuple hAUa) hmx)
            (listAllNodes_mem (allNodes_tuple hAUb) hmm)
            (listAllNodes_mem (allNodes_tuple hAUc) hmy)
            (listAllNodes_mem (allNodes_tuple hBa) hmx)
            (listAllNodes_mem (allNodes_tuple hBb) hmm)
            (listAllNodes_mem (allNodes_tuple hBc) hmy)
            h12 h23
          have s1 := tySize_le_of_mem hmx
          have s2 := tySize_le_of_mem hmm
          have s3 := tySize_le_of_mem hmy
          simp only [tySize] at hn ⊢
          omega
        | _ =>
          rw [isSubtype_default hbc (by rfl)] at Rbc
          exact absurd Rbc (by simp)
      | _ =>
        rw [isSubtype_default hab (by rfl)] at Rab
        exact absurd Rab (by simp)
    | _ =>
      cases b with
      | Any => exact absurd rfl hbA
      | Unknown => exact absurd rfl hbU
      | Union vs =>
        rw [isSubtype_union_right (by rfl)] at Rab
        obtain ⟨v, hv, hRav⟩ := optAnyTy_some_true_elim Rab
        rw [isSubtype_union_left hbc hcA hcU] at Rbc
        have hRvc := optAllTy_some_true.1 Rbc v hv
        refine IH _ v c ?_ hAUa (listAllNodes_mem (allNodes_union hAUb) hv) hAUc
          hBa (listAllNodes_mem (allNodes_union hBb) hv) hBc hRav hRvc
        have := tySize_le_of_mem hv
        simp only [tySize] at hn ⊢
        omega
      | _ =>
        first
        | (rw [isSubtype_default hab (by rfl)] at Rab
           exact absurd Rab (by simp))
        | -- a = Int, b = Float, or b otherwise relates only to a union c
          (cases c with
          | Any => exact absurd rfl hcA
          | Unknown => exact absurd rfl hcU
          | Union us =>
            rw [isSubtype_union_right (by rfl)] at Rbc
            obtain ⟨u, hu, hRbu⟩ := optAnyTy_some_true_elim Rbc
            rw [isSubtype_union_right (by rfl)]
            refine optAnyTy_some_true_intro
              (fun w hw => isSubtype_isSome hBa (listAllNodes_mem (allNodes_union hBc) hw))
              ⟨u, hu, ?_⟩
            refine IH _ _ u ?_ hAUa hAUb (listAllNodes_mem (allNodes_union hAUc) hu)
              hBa hBb (listAllNodes_mem (allNodes_union hBc) hu) Rab hRbu
            have := tySize_le_of_mem hu
            simp only [tySize] at hn ⊢
            omega
          | _ =>
            first
            | exact absurd rfl hbc
            | (rw [isSubtype_default hbc (by rfl)] at Rbc
               exact absurd Rbc (by simp)))

/-- C6 (amended): subtype transitivity.  For all types a, b, c in which
Any and Unknown do not occur at any depth and in which no bytes literal
occurs, if subtype(a, b) and subtype(b, c) then subtype(a, c).  The
bytes-free condition is the amendment: with a bytes literal present the
conclusion query can panic inside is_subtype even though both premises
hold (see the counterexample). -/
theorem isSubtype_trans {a b c : Ty}
    (hAUa : noAnyUnknown a = true) (hAUb : noAnyUnknown b = true)
    (hAUc : noAnyUnknown c = true) (hBa : noBytes a = true)
    (hBb : noBytes b = true) (hBc : noBytes c = true)
    (hab : isSubtype a b = Option.some true) (hbc : isSubtype b c = Option.some true) :
    isSubtype a c = Option.some true :=
  isSubtype_trans_n (tySize a + tySize b + tySize c) a b c (le_refl _)
    hAUa hAUb hAUc hBa hBb hBc hab hbc

theorem scopeSets_scopes : ∀ (ops : List (String × ScopedTy)) (g : ScopeMap)
    (m : ScopeMap) (rest : List ScopeMap),
    ∃ m2, scopeSets ⟨g, m :: rest⟩ ops = ⟨g, m2 :: rest⟩
  | [], g, m, rest => ⟨m, rfl⟩
  | (n, v) :: ops, g, m, rest => by
    simp only [scopeSets, scopeSet]
    exact scopeSets_scopes ops g (mapInsert m n v) rest

theorem tyListNoUnion_append : ∀ {xs ys : TyList}, tyListNoUnion xs = true →
    tyListNoUnion ys = true → tyListNoUnion (tyAppend xs ys) = true
  | .nil, ys, _, hy => hy
  | .cons x xs, ys, hx, hy => by
    simp only [tyListNoUnion, Bool.and_eq_true] at hx
    simp only [tyAppend, tyListNoUnion, Bool.and_eq_true]
    exact ⟨hx.1, tyListNoUnion_append hx.2 hy⟩

theorem flatten_noUnion : ∀ {ts : TyList}, tyListFlatOk ts = true →
    tyListNoUnion (flatten ts) = true
  | .nil, _ => rfl
  | .cons t ts, h => by
    simp only [tyListFlatOk, Bool.and_eq_true] at h
    cases t with
    | Union us =>
      simp only [flatten]
      exact tyListNoUnion_append (by simpa [flatOk] using h.1) (flatten_noUnion h.2)
    | _ =>
      simp only [flatten, tyListNoUnion, Bool.and_eq_true]
      exact ⟨trivial, flatten_noUnion h.2⟩

theorem filterKeep_noUnion : ∀ {ts : TyList} {ks : List Bool}, tyListNoUnion ts = true →
    tyListNoUnion (tyFilterKeep ts ks) = true
  | .nil, _, _ => rfl
  | .cons _ _, [], _ => rfl
  | .cons t ts, k :: ks, h => by
    simp only [tyListNoUnion, Bool.and_eq_true] at h
    cases k with
    | true =>
      show tyListNoUnion (.cons t (tyFilterKeep ts ks)) = true
      simp only [tyListNoUnion, Bool.and_eq_true]
      exact ⟨h.1, filterKeep_noUnion h.2⟩
    | false =>
      show tyListNoUnion (tyFilterKeep ts ks) = true
      exact filterKeep_noUnion h.2

theorem union_eq (ts : TyList) : union ts =
    (match collapseKeeps (flatten ts) 0 (flatten ts) with
    | Option.none => Option.none
    | Option.some keeps =>
      Option.some
        (match tyFilterKeep (flatten ts) keeps with
        | .nil => Ty.Never
        | .cons t .nil => t
        | ks => Ty.Union ks)) := by
  cases h : collapseKeeps (flatten ts) 0 (flatten ts) with
  | none => simp [union, collapseUnionTypes, collapseSubtypes, h]
  | some keeps => simp [union, collapseUnionTypes, collapseSubtypes, h]

theorem keptSpec_shift {t1 : Ty} {i1 j : Nat} {t2 : Ty} {rest : TyList}
    (h0 : j ≠ i1 → isSubtype t1 t2 ≠ Option.some true ∨
      (isSubtype t2 t1 = Option.some true ∧ i1 < j)) :
    ((∀ k u, tyGet rest k = Option.some u → (j + 1) + k ≠ i1 →
        isSubtype t1 u ≠ Option.some true ∨
          (isSubtype u t1 = Option.some true ∧ i1 < (j + 1) + k)) ↔
      (∀ k u, tyGet (.cons t2 rest) k = Option.some u → j + k ≠ i1 →
        isSubtype t1 u ≠ Option.some true ∨
          (isSubtype u t1 = Option.some true ∧ i1 < j + k))) := by
  constructor
  · intro h k u hget hne
    cases k with
    | zero =>
      simp only [tyGet, Option.some.injEq] at hget
      subst hget
      rcases h0 (by omega) with hl | ⟨ha, hb⟩
      · exact Or.inl hl
      · exact Or.inr ⟨ha, by omega⟩
    | succ k =>
      rcases h k u hget (by omega) with hl | ⟨ha, hb⟩
      · exact Or.inl hl
      · exact Or.inr ⟨ha, by omega⟩
  · intro h k u hget hne
    rcases h (k + 1) u hget (by omega) with hl | ⟨ha, hb⟩
    · exact Or.inl hl
    · exact Or.inr ⟨ha, by omega⟩

theorem collapseCond_spec {t1 : Ty} (i1 : Nat) (hb1 : noBytes t1 = true) :
    ∀ (rest : TyList) (j : Nat), noBytesL rest = true →
      (collapseCond t1 i1 j rest = Option.some true ↔
        ∀ k t2, tyGet rest k = Option.some t2 → j + k ≠ i1 →
          isSubtype t1 t2 ≠ Option.some true ∨
            (isSubtype t2 t1 = Option.some true ∧ i1 < j + k))
  | .nil, j, _ => by
    constructor
    · intro _ k t2 hk
      simp [tyGet] at hk
    · intro _
      rfl
  | .cons t2 rest, j, hb => by
    simp only [noBytesL, Bool.and_eq_true] at hb
    have IH := collapseCond_spec i1 hb1 rest (j + 1) hb.2
    by_cases hij : i1 = j
    · simp only [collapseCond, if_pos hij]
      exact IH.trans (keptSpec_shift (fun hne => absurd hij.symm hne))
    · simp only [collapseCond, if_neg hij]
      cases hs12 : isSubtype t1 t2 with
      | none =>
        have := isSubtype_isSome hb1 hb.1
        rw [hs12] at this
        exact absurd this (by simp)
      | some s12 =>
        cases s12 with
        | false =>
          show collapseCond t1 i1 (j + 1) rest = Option.some true ↔ _
          exact IH.trans (keptSpec_shift (fun _ => Or.inl (by simp [hs12])))
        | true =>
          cases hs21 : isSubtype t2 t1 with
          | none =>
            have := isSubtype_isSome hb.1 hb1
            rw [hs21] at this
            exact absurd this (by simp)
          | some s21 =>
            by_cases hcond : s21 = true ∧ i1 < j
            · have hc : (s21 && decide (i1 < j)) = true := by
                simp [hcond.1, hcond.2]
              show (if (s21 && decide (i1 < j)) = true then
                  collapseCond t1 i1 (j + 1) rest else Option.some false) =
                    Option.some true ↔ _
              rw [if_pos hc]
              refine IH.trans (keptSpec_shift (fun _ => Or.inr ⟨?_, by omega⟩))
              rw [hs21, hcond.1]
            · have hc : (s21 && decide (i1 < j)) = false := by
                cases s21 with
                | false => rfl
                | true =>
                  simp only [Bool.true_and, decide_eq_false_iff_not]
                  intro hlt
                  exact hcond ⟨rfl, hlt⟩
              show (if (s21 && decide (i1 < j)) = true then
                  collapseCond t1 i1 (j + 1) rest else Option.some false) =
                    Option.some true ↔ _
              rw [if_neg (by simp [hc])]
              constructor
              · intro h
                exact absurd h (by simp)
              · intro h
                exfalso
                rcases h 0 t2 rfl (by omega) with hl | ⟨ha, hb'⟩
                · exact hl hs12
                · rw [hs21] at ha
                  have : s21 = true := by
                    injection ha
                  exact hcond ⟨this, by omega⟩

theorem literalScan_err : ∀ {args : AnnotList}, annotAllLit args = false →
    ∃ d s, literalScan args = Except.error d ∧
      diagMessage d = "Expecting literal, found " ++ s
  | .nil, h => by simp [annotAllLit] at h
  | .cons a rest, h => by
    cases a with
    | typeA tr tv =>
      cases tv with
      | Literal l =>
        have hr : annotAllLit rest = false := by
          simpa [annotAllLit, annotIsLit] using h
        obtain ⟨d, s, hd, hm⟩ := literalScan_err hr
        exact ⟨d, s, by simp [literalScan, hd], hm⟩
      | _ => exact ⟨_, _, rfl, rfl⟩
    | partAnn pr kind pargs => exact ⟨_, _, rfl, rfl⟩

/-- C6 witness: the transitivity theorem applied to the concrete chain
Literal[1] ≤ Int ≤ Float. -/
theorem isSubtype_trans_witness_C6 :
    isSubtype (.Literal (.IntLiteral 1)) Ty.Float = Option.some true :=
  isSubtype_trans (a := .Literal (.IntLiteral 1)) (b := Ty.Int) (c := Ty.Float)
    (by decide) (by decide) (by decide) (by decide) (by decide) (by decide)
    (by decide) (by decide)

/-- C6 counterexample: a triple of types free of Any and Unknown at any
depth for which both premises of transitivity hold with value true, yet
the conclusion query hits the unimplemented bytes-literal arm of
is_subtype and panics, so subtype(a, c) does not hold. -/
theorem isSubtype_trans_counterexample_C6 :
    noAnyUnknown (.Function (.cons (.Literal (.BytesLiteral [])) .nil) ["p"]
      (.Function (.cons .String .nil) ["s"] (.Literal (.IntLiteral 1)))) = true ∧
    noAnyUnknown (.Function (.cons (.Literal (.BytesLiteral [])) .nil) ["p"]
      (.Union (.cons .Int (.cons (.Function (.cons .String .nil) ["s"] .Int) .nil)))) = true ∧
    noAnyUnknown (.Union (.cons
      (.Function (.cons (.Literal (.BytesLiteral [])) .nil) ["p"]
        (.Function (.cons (.Literal (.BytesLiteral [])) .nil) ["x"] .Int))
      (.cons (.Function (.cons (.Literal (.BytesLiteral [])) .nil) ["p"]
        (.Union (.cons .Int (.cons (.Function (.cons .String .nil) ["s"] .Int) .nil)))) .nil))) =
      true ∧
    isSubtype
      (.Function (.cons (.Literal (.BytesLiteral [])) .nil) ["p"]
        (.Function (.cons .String .nil) ["s"] (.Literal (.IntLiteral 1))))
      (.Function (.cons (.Literal (.BytesLiteral [])) .nil) ["p"]
        (.Union (.cons .Int (.cons (.Function (.cons .String .nil) ["s"] .Int) .nil)))) =
      Option.some true ∧
    isSubtype
      (.Function (.cons (.Literal (.BytesLiteral [])) .nil) ["p"]
        (.Union (.cons .Int (.cons (.Function (.cons .String .nil) ["s"] .Int) .nil))))
      (.Union (.cons
        (.Function (.cons (.Literal (.BytesLiteral [])) .nil) ["p"]
          (.Function (.cons (.Literal (.BytesLiteral [])) .nil) ["x"] .Int))
        (.cons (.Function (.cons (.Literal (.BytesLiteral [])) .nil) ["p"]
          (.Union (.cons .Int (.cons (.Function (.cons .String .nil) ["s"] .Int) .nil)))) .nil))) =
      Option.some true ∧
    isSubtype
      (.Function (.cons (.Literal (.BytesLiteral [])) .nil) ["p"]
        (.Function (.cons .String .nil) ["s"] (.Literal (.IntLiteral 1))))
      (.Union (.cons
        (.Function (.cons (.Literal (.BytesLiteral [])) .nil) ["p"]
          (.Function (.cons (.Literal (.BytesLiteral [])) .nil) ["x"] .Int))
        (.cons (.Function (.cons (.Literal (.BytesLiteral [])) .nil) ["p"]
          (.Union (.cons .Int (.cons (.Function (.cons .String .nil) ["s"] .Int) .nil)))) .nil))) =
      Option.none := by
  decide

/-- C5: for every type b, subtype(Never, b) returns true exactly when b
is structurally equal to Never or b is Any or Unknown, and false for
every other b (a Union with Never or Any among its members included,
since the union arm requires every or some member relation and the
equality test is structural). -/
theorem never_subtype_C5 (b : Ty) :
    isSubtype .Never b =
      Option.some (decide (b = .Never) || decide (b = .Any) || decide (b = .Unknown)) := by
  by_cases h1 : b = .Never
  · subst h1; decide
  by_cases h2 : b = .Any
  · subst h2; decide
  by_cases h3 : b = .Unknown
  · subst h3; decide
  rw [isSubtype_never h1 h2 h3, decide_eq_false h1, decide_eq_false h2, decide_eq_false h3]
  rfl

/-- C10: scope push/pop round-trip.  For every scope s and every
sequence of set operations performed between add_scope and pop_scope,
the pop returns exactly s: set writes only the top frame, so bindings
created inside the pushed frame never leak into enclosing frames. -/
theorem scope_push_pop_C10 (s : Scope) (ops : List (String × ScopedTy)) :
    scopePopScope (scopeSets (scopeAddScope s) ops) = Option.some s := by
  obtain ⟨m2, hm⟩ := scopeSets_scopes ops s.global [] s.scopes
  show scopePopScope (scopeSets ⟨s.global, [] :: s.scopes⟩ ops) = Option.some s
  rw [hm]
  rfl

/-- C9: synth of a call whose callee is the bare name reveal_type with
an empty argument list panics (the unwrap on the missing first
argument), and the panic propagates out of the statement checker on the
well-formed one-line file reveal_type(). -/
theorem reveal_type_no_args_C9 :
    synthE scopeNew (.call ⟨0, 13⟩ (.name ⟨0, 11⟩ "reveal_type" .Load) .nil) = Option.none ∧
    checkStatement ⟨"t.py"⟩ ⟨scopeNew, ⟨Option.none, []⟩, []⟩
      (.exprStmt ⟨0, 13⟩ (.call ⟨0, 13⟩ (.name ⟨0, 11⟩ "reveal_type" .Load) .nil)) =
      Option.none :=
  ⟨rfl, rfl⟩

/-- C3 (amended): union flatness for flat inputs.  For every input list
whose members are flat (a Union member has no Union among its own
members), the type union(list) returns is never a Union having a Union
among its members.  The flat-input condition is the amendment: flatten
makes one pass only, so a Union member that itself contains a Union
survives one level deep (see the counterexample). -/
theorem union_flat_C3 {ts : TyList} {t : Ty} (hok : tyListFlatOk ts = true)
    (hu : union ts = Option.some t) : noNestedUnion t = true := by
  have hnu : tyListNoUnion (flatten ts) = true := flatten_noUnion hok
  rw [union_eq] at hu
  cases hks : collapseKeeps (flatten ts) 0 (flatten ts) with
  | none =>
    rw [hks] at hu
    exact absurd hu (by simp)
  | some keeps =>
    simp only [hks] at hu
    have hkept : tyListNoUnion (tyFilterKeep (flatten ts) keeps) = true :=
      filterKeep_noUnion hnu
    cases hf : tyFilterKeep (flatten ts) keeps with
    | nil =>
      simp only [hf, Option.some.injEq] at hu
      subst hu
      rfl
    | cons u us =>
      rw [hf] at hkept
      cases us with
      | nil =>
        simp only [hf, Option.some.injEq] at hu
        subst hu
        simp only [tyListNoUnion, Bool.and_eq_true] at hkept
        cases u <;> simp_all [noNestedUnion, tyListNoUnion]
      | cons v vs =>
        simp only [hf, Option.some.injEq] at hu
        subst hu
        simpa [noNestedUnion] using hkept

/-- C3 witness: the amended flatness theorem applied to the flat input
[Int, str], whose union is the two-member Union [Int, str]. -/
theorem union_flat_C3_witness :
    noNestedUnion (.Union (.cons .Int (.cons .String .nil))) = true :=
  @union_flat_C3 (.cons .Int (.cons .String .nil))
    (.Union (.cons .Int (.cons .String .nil))) (by decide) (by decide)

/-- C3 counterexample: on the input [Union[Union[int], str]] — a list
whose single member is a non-normalized Union containing a Union —
union returns Union[Union[int], str], a Union with a Union member. -/
theorem union_flat_counterexample_C3 :
    union (.cons (.Union (.cons (.Union (.cons .Int .nil)) (.cons .String .nil))) .nil) =
      Option.some (.Union (.cons (.Union (.cons .Int .nil)) (.cons .String .nil))) ∧
    noNestedUnion (.Union (.cons (.Union (.cons .Int .nil)) (.cons .String .nil))) = false := by
  exact ⟨by decide, by decide⟩

/-- C7: union collapse by subtyping with a keep-first tie-break.  The
code's keep condition (collapseCond) agrees with the spec's formulation
(keptSpec): an arm is kept exactly when, against every other arm, it is
not a subtype of that arm, or the two are mutually subtypes and it
stands earlier in source order (on bytes-free members, where the
subtype queries are defined).  Concretely union([Int, Float]) = Float,
union([Int, Int]) = Int, union([Literal(1), Literal(1)]) = Literal(1),
and union([Literal("a"), Literal("b")]) is the two-member Union of the
two literals, displayed Literal["a", "b"]. -/
theorem union_collapse_C7 :
    (∀ (t1 : Ty) (i1 : Nat) (all : TyList), noBytes t1 = true → noBytesL all = true →
      (collapseCond t1 i1 0 all = Option.some true ↔ keptSpec t1 i1 all)) ∧
    union (.cons .Int (.cons .Float .nil)) = Option.some .Float ∧
    union (.cons .Int (.cons .Int .nil)) = Option.some .Int ∧
    union (.cons (.Literal (.IntLiteral 1)) (.cons (.Literal (.IntLiteral 1)) .nil)) =
      Option.some (.Literal (.IntLiteral 1)) ∧
    union (.cons (.Literal (.StringLiteral "a")) (.cons (.Literal (.StringLiteral "b")) .nil)) =
      Option.some (.Union (.cons (.Literal (.StringLiteral "a"))
        (.cons (.Literal (.StringLiteral "b")) .nil))) ∧
    tyToString (.Union (.cons (.Literal (.StringLiteral "a"))
      (.cons (.Literal (.StringLiteral "b")) .nil))) = "Literal[\"a\", \"b\"]" := by
  refine ⟨?_, by decide, by decide, by decide, by decide, by decide⟩
  intro t1 i1 all hb1 hball
  have h := collapseCond_spec i1 hb1 all 0 hball
  constructor
  · intro hc i2 t2 hget hne
    rcases h.1 hc i2 t2 hget (by omega) with hl | ⟨ha, hb⟩
    · exact Or.inl hl
    · exact Or.inr ⟨ha, by omega⟩
  · intro hk
    refine h.2 ?_
    intro k t2 hget hne
    rcases hk k t2 hget (by omega) with hl | ⟨ha, hb⟩
    · exact Or.inl hl
    · exact Or.inr ⟨ha, by omega⟩

/-- C7 witness: the keep characterization applied to the arm Float at
index 1 of [Int, Float], which the collapse keeps. -/
theorem union_collapse_C7_witness :
    keptSpec Ty.Float 1 (.cons .Int (.cons .Float .nil)) :=
  (union_collapse_C7.1 Ty.Float 1 (.cons .Int (.cons .Float .nil))
    (by decide) (by decide)).1 (by decide)

/-- C8: for every annotation of the form Literal[X] where some argument
X is not itself a realised literal type, the literal scan of
verify_annotation produces an error whose message begins "Expecting
literal, found", verify_annotation returns that error without
unwinding, and the public entry point synth_annotation reports it and
returns Unknown — concretely for Literal[int] and for the nested
Literal[Literal[1]]. -/
theorem literal_args_C8 :
    (∀ (args : AnnotList) (r : TextRange), annotAllLit args = false →
      ∃ d s, literalScan args = Except.error d ∧
        diagMessage d = "Expecting literal, found " ++ s ∧
        verifyAnnot (.partAnn r .Literal args) = Option.some (Except.error d)) ∧
    synthAnnot scopeNew (Option.some (.subscript ⟨0, 12⟩ (.name ⟨0, 7⟩ "Literal" .Load)
        (.name ⟨8, 11⟩ "int" .Load))) =
      Option.some (Ty.Unknown, [.error "Expecting literal, found int" ⟨8, 11⟩]) ∧
    synthAnnot scopeNew (Option.some (.subscript ⟨0, 19⟩ (.name ⟨0, 7⟩ "Literal" .Load)
        (.subscript ⟨8, 18⟩ (.name ⟨8, 15⟩ "Literal" .Load) (.intLit ⟨16, 17⟩ 1)))) =
      Option.some (Ty.Unknown, [.error "Expecting literal, found Literal" ⟨8, 15⟩]) := by
  refine ⟨?_,
    by simp [synthAnnot, annStageAOpt, annStageA, scopeGet, scopeGet.go, scopeNew,
      annotAppend, verifyAnnot, literalScan, tyToString, mapGet, Option.bind],
    by simp [synthAnnot, annStageAOpt, annStageA, scopeGet, scopeGet.go, scopeNew,
      annotAppend, verifyAnnot, literalScan, pakToString, mapGet, Option.bind]⟩
  intro args r h
  obtain ⟨d, s, hd, hm⟩ := literalScan_err h
  exact ⟨d, s, hd, hm, by simp [verifyAnnot, hd]⟩

/-- C8 witness: the literal-argument property applied to the single
non-literal argument int. -/
theorem literal_args_C8_witness :
    ∃ d s, literalScan (.cons (.typeA ⟨8, 11⟩ Ty.Int) .nil) = Except.error d ∧
      diagMessage d = "Expecting literal, found " ++ s ∧
      verifyAnnot (.partAnn ⟨0, 12⟩ .Literal (.cons (.typeA ⟨8, 11⟩ Ty.Int) .nil)) =
        Option.some (Except.error d) :=
  literal_args_C8.1 (.cons (.typeA ⟨8, 11⟩ Ty.Int) .nil) ⟨0, 12⟩ (by decide)

/-- C4 (amended): check synthesizes the expression and tests the
subtype relation against the expected type.  When the synthesized type
s satisfies subtype(s, τ) the checked expression yields Some(s) with no
new diagnostic; when subtype(s, τ) is defined and false it yields None
after appending exactly one expected-but-got diagnostic on the
expression's span, whose message is "Expected <τ> but found <s>.";
when the subtype query itself panics the panic propagates out of check
(the amendment — see the counterexample). -/
theorem check_expected_got_C4 {scope : Scope} {e : Expr} {τ s : Ty} {ds : List Diag}
    (hs : synthE scope e = Option.some (s, ds)) :
    (isSubtype s τ = Option.some true →
      checkE scope e τ = Option.some (Option.some s, ds)) ∧
    (isSubtype s τ = Option.some false →
      checkE scope e τ = Option.some (Option.none, ds ++ [.expectedButGot τ s e.range]) ∧
      diagMessage (Diag.expectedButGot τ s e.range) =
        "Expected " ++ tyToString τ ++ " but found " ++ tyToString s ++ ".") ∧
    (isSubtype s τ = Option.none → checkE scope e τ = Option.none) := by
  refine ⟨fun ht => ?_, fun hf => ⟨?_, rfl⟩, fun hn => ?_⟩
  · simp [checkE, hs, ht]
  · simp [checkE, hs, ‹isSubtype s τ = Option.some false›]
  · simp [checkE, hs, hn]

/-- C4 witness: the check specification applied to the literal 5
checked against str, which fails the subtype test and reports one
expected-but-got diagnostic. -/
theorem check_expected_got_C4_witness :
    checkE scopeNew (.intLit ⟨0, 1⟩ 5) Ty.String =
      Option.some (Option.none,
        [Diag.expectedButGot Ty.String (Ty.Literal (.IntLiteral 5)) ⟨0, 1⟩]) ∧
    diagMessage (Diag.expectedButGot Ty.String (Ty.Literal (.IntLiteral 5)) ⟨0, 1⟩) =
      "Expected " ++ tyToString Ty.String ++ " but found " ++
        tyToString (Ty.Literal (.IntLiteral 5)) ++ "." :=
  (@check_expected_got_C4 scopeNew (.intLit ⟨0, 1⟩ 5) Ty.String
    (.Literal (.IntLiteral 5)) [] (by decide)).2.1 (by decide)

/-- C4 counterexample: checking a parameterless-annotation lambda
against a function type whose parameter is a bytes literal makes the
subtype test hit the unimplemented bytes arm, so check panics instead
of returning Some or appending a diagnostic. -/
theorem check_panic_counterexample_C4 :
    checkE scopeNew (.lambda ⟨0, 12⟩ (.cons "p" .noneE .noneE .nil) (.intLit ⟨10, 11⟩ 1))
      (.Function (.cons (.Literal (.BytesLiteral [1])) .nil) ["p"]
        (.Literal (.IntLiteral 1))) =
      Option.none := by
  simp [checkE, synthE, synthLambdaParams, Option.bind,
    show isSubtype (.Function (.cons .Unknown .nil) ["p"] (.Literal (.IntLiteral 1)))
        (.Function (.cons (.Literal (.BytesLiteral [1])) .nil) ["p"]
          (.Literal (.IntLiteral 1))) = Option.none from by decide]

/-- C1 (amended): a plain assignment to a locked binding checks the
value against the locked type; when the check fails the binding (type
and lock flag) is left intact and only the diagnostics grow, and when
it succeeds the binding is overwritten with the checked (synthesized)
type as a new unlocked entry — so the stored type and the lock are not
preserved on success (the amendment — see the counterexample). -/
theorem assign_locked_C1 {info : Info} {st : SynthState} {r r2 : TextRange}
    {n : String} {v : Expr} {τ : Ty}
    (hlook : scopeGetTop st.scope n = Option.some ⟨τ, true⟩) :
    checkStatement info st (.assign r [.name r2 n .Store] v) =
      match checkE st.scope v τ with
      | Option.none => Option.none
      | Option.some (Option.none, ds) => Option.some { st with diags := st.diags ++ ds }
      | Option.some (Option.some t, ds) =>
        Option.some { st with
          scope := scopeSet st.scope n (scopedNew t)
          diags := st.diags ++ ds } := by
  show assignTargets v st [.name r2 n .Store] = _
  cases hc : checkE st.scope v τ with
  | none => simp [assignTargets, hlook, hc]
  | some p =>
    obtain ⟨res, ds⟩ := p
    cases res with
    | none => simp [assignTargets, hlook, hc]
    | some t => simp [assignTargets, hlook, hc]

/-- C1 witness: the locked-assignment description applied to x = 5 with
x locked at Int; the check succeeds and the binding becomes the
unlocked Literal[5]. -/
theorem assign_locked_C1_witness :
    checkStatement ⟨"t.py"⟩ ⟨⟨[("x", ⟨Ty.Int, true⟩)], []⟩, ⟨Option.none, []⟩, []⟩
        (.assign ⟨0, 5⟩ [.name ⟨0, 1⟩ "x" .Store] (.intLit ⟨4, 5⟩ 5)) =
      Option.some ⟨⟨[("x", ⟨Ty.Literal (.IntLiteral 5), false⟩)], []⟩,
        ⟨Option.none, []⟩, []⟩ :=
  (assign_locked_C1 (τ := Ty.Int) (by decide)).trans (by decide)

/-- C1 counterexample: x: int = 5 locks x at Int, and the subsequent
plain assignment x = 5 passes the check and changes the stored binding
from the locked Int to the unlocked Literal[5] — a successful
assignment does not leave the locked binding unchanged. -/
theorem assign_locked_counterexample_C1 :
    checkStatement ⟨"t.py"⟩ ⟨scopeNew, ⟨Option.none, []⟩, []⟩
        (.annAssign ⟨0, 11⟩ (.name ⟨0, 1⟩ "x" .Store) (.name ⟨3, 6⟩ "int" .Load)
          (Option.some (.intLit ⟨9, 10⟩ 5))) =
      Option.some ⟨⟨[("x", ⟨Ty.Int, true⟩)], []⟩, ⟨Option.none, []⟩, []⟩ ∧
    checkStatement ⟨"t.py"⟩ ⟨⟨[("x", ⟨Ty.Int, true⟩)], []⟩, ⟨Option.none, []⟩, []⟩
        (.assign ⟨12, 17⟩ [.name ⟨12, 13⟩ "x" .Store] (.intLit ⟨16, 17⟩ 5)) =
      Option.some ⟨⟨[("x", ⟨Ty.Literal (.IntLiteral 5), false⟩)], []⟩,
        ⟨Option.none, []⟩, []⟩ := by
  exact ⟨by decide, by decide⟩

/-- C2: after import sys as foo the checker binds the scope key "sys"
(the module name) to a Module displayed as "foo", and looking up the
alias "foo" fails — the code uses alias.name as the scope key and the
asname only as the module's display name, diverging from the claimed
binding of the local alias. -/
theorem import_alias_C2 :
    checkStatement ⟨"t.py"⟩ ⟨scopeNew, ⟨Option.none, []⟩, []⟩
        (.importStmt ⟨0, 17⟩ [⟨"sys", Option.some "foo", ⟨0, 17⟩⟩]) =
      Option.some ⟨⟨[("sys", ⟨.Module "foo" (loadModule "sys"), false⟩)], []⟩,
        ⟨Option.none, []⟩, []⟩ ∧
    scopeGet ⟨[("sys", ⟨.Module "foo" (loadModule "sys"), false⟩)], []⟩ "foo" =
      Option.none ∧
    scopeGet ⟨[("sys", ⟨.Module "foo" (loadModule "sys"), false⟩)], []⟩ "sys" =
      Option.some ⟨.Module "foo" (loadModule "sys"), false⟩ := by
  exact ⟨by decide, by decide, by decide⟩
